import Mathlib

/-!
Shallow embedding of the kosmonaut box-tree construction core
(`src/layout/mod.rs`): the styled-node source, the layout box model,
the inline-container resolver `get_inline_container`, and the recursive
generator `build_layout_tree`, together with proofs of the spec claims.

Modelling conventions:
* `NodeRef` (a reference-counted DOM handle) is modelled as the inductive
  `Node`; reference identity is modelled by an `id : Nat` field that the
  algorithm never reads.
* The `f32` geometry fields are modelled as `Int`; only the default value
  `0` is ever produced by this core, and no arithmetic is performed.
* The Rust `expect` panic (process abort) is modelled as the `Except.error`
  outcome, so `build_layout_tree : Node → Except String (Option LayoutBox)`.
* `get_inline_container` returns `&mut LayoutBox`, i.e. both a possibly
  mutated `self` and a designation of which sub-box the reference points
  at; we model it as `LayoutBox × ContainerLoc`.
-/

namespace Kosmonaut

/-- `Display` — the resolved display property: `Block | Inline | None`. -/
inductive Display : Type where
  | block : Display
  | inline : Display
  | none : Display
deriving DecidableEq, Repr

/-- The resolved computed-values record; this core only reads `display`. -/
structure ComputedValues : Type where
  display : Display
deriving DecidableEq, Repr

/-- A styled source node (`NodeRef`): an identity tag, optional resolved
computed values, and ordered children. -/
inductive Node : Type where
  | mk : Nat → Option ComputedValues → List Node → Node

def Node.id : Node → Nat
  | .mk i _ _ => i

def Node.computed_values : Node → Option ComputedValues
  | .mk _ c _ => c

def Node.children : Node → List Node
  | .mk _ _ cs => cs

/-- Content rectangle (x, y, width, height, all defaulting to zero). -/
structure Rect : Type where
  x : Int := 0
  y : Int := 0
  width : Int := 0
  height : Int := 0
deriving DecidableEq, Repr

/-- Edge sizes (left/right/top/bottom, defaulting to zero). -/
structure EdgeSizes : Type where
  left : Int := 0
  right : Int := 0
  top : Int := 0
  bottom : Int := 0
deriving DecidableEq, Repr

/-- Box dimensions: content rect plus padding/border/margin edges. -/
structure Dimensions : Type where
  content : Rect := {}
  padding : EdgeSizes := {}
  border : EdgeSizes := {}
  margin : EdgeSizes := {}
deriving DecidableEq, Repr

/-- The all-zero `Dimensions` produced by `Default::default()` in Rust. -/
def Dimensions.default : Dimensions := {}

mutual
/-- `BoxType`: `Block(node)`, `Inline(node)`, `Anonymous`. -/
inductive BoxType : Type where
  | block : Node → BoxType
  | inline : Node → BoxType
  | anonymous : BoxType

/-- A layout box: dimensions, kind tag, ordered children. -/
inductive LayoutBox : Type where
  | mk : Dimensions → BoxType → List LayoutBox → LayoutBox
end

def LayoutBox.dimensions : LayoutBox → Dimensions
  | .mk d _ _ => d

def LayoutBox.box_type : LayoutBox → BoxType
  | .mk _ bt _ => bt

def LayoutBox.children : LayoutBox → List LayoutBox
  | .mk _ _ cs => cs

/-- `std::mem::discriminant` on `BoxType`: the variant tag alone. -/
def BoxType.discriminant : BoxType → Nat
  | .block _ => 0
  | .inline _ => 1
  | .anonymous => 2

/-- `LayoutBox::new`: fresh box with zeroed dimensions and no children. -/
def LayoutBox.new (box_type : BoxType) : LayoutBox :=
  .mk Dimensions.default box_type []

/-- Where the `&mut LayoutBox` returned by `get_inline_container` points:
at `self` itself, or at the last child of `self`. -/
inductive ContainerLoc : Type where
  | self : ContainerLoc
  | lastChild : ContainerLoc
deriving DecidableEq, Repr

/-- Append a box at the end of `self.children` (Rust `children.push`). -/
def LayoutBox.pushChild (self child : LayoutBox) : LayoutBox :=
  .mk self.dimensions self.box_type (self.children ++ [child])

/-- Rewrite the last element of a list, identity on the empty list. -/
def modifyLastList (f : LayoutBox → LayoutBox) : List LayoutBox → List LayoutBox
  | [] => []
  | [x] => [f x]
  | x :: y :: ys => x :: modifyLastList f (y :: ys)

/-- Rewrite the last child of `self` (the effect of mutating through
`children.last_mut()`); identity when there are no children. -/
def LayoutBox.modifyLast (self : LayoutBox) (f : LayoutBox → LayoutBox) : LayoutBox :=
  .mk self.dimensions self.box_type (modifyLastList f self.children)

/-- `LayoutBox::get_inline_container`: if `self` is `Inline` or `Anonymous`
the container is `self`; if `Block`, reuse an `Anonymous` last child
(compared by discriminant) or push a fresh `Anonymous` box, and the
container is the last child. -/
def LayoutBox.get_inline_container (self : LayoutBox) : LayoutBox × ContainerLoc :=
  match self.box_type with
  | BoxType.inline _ => (self, ContainerLoc.self)
  | BoxType.anonymous => (self, ContainerLoc.self)
  | BoxType.block _ =>
    let self1 :=
      match self.children.getLast? with
      | Option.some last_child =>
        if last_child.box_type.discriminant = BoxType.anonymous.discriminant then self
        else self.pushChild (LayoutBox.new BoxType.anonymous)
      | Option.none => self.pushChild (LayoutBox.new BoxType.anonymous)
    (self1, ContainerLoc.lastChild)

/-- The box the returned `&mut` designates. -/
def containerOf (p : LayoutBox × ContainerLoc) : Option LayoutBox :=
  match p.2 with
  | ContainerLoc.self => Option.some p.1
  | ContainerLoc.lastChild => p.1.children.getLast?

/-- The effect of `layout_box.get_inline_container().children.push(child)`. -/
def LayoutBox.push_inline (self child : LayoutBox) : LayoutBox :=
  match self.get_inline_container with
  | (self1, ContainerLoc.self) => self1.pushChild child
  | (self1, ContainerLoc.lastChild) => self1.modifyLast (fun lc => lc.pushChild child)

/-- The Rust panic message of the `expect` on missing computed values. -/
def panicMsg : String :=
  "layout called on a node that has not yet acquired computed values"

mutual
/-- `build_layout_tree`: build the layout tree of a styled node. -/
def build_layout_tree : Node → Except String (Option LayoutBox)
  | Node.mk i computed cs =>
    match computed with
    | Option.none => Except.error panicMsg
    | Option.some cv =>
      match cv.display with
      | Display.none => Except.ok Option.none
      | Display.block =>
        match build_children cs (LayoutBox.new (BoxType.block (Node.mk i computed cs))) with
        | Except.error e => Except.error e
        | Except.ok b => Except.ok (Option.some b)
      | Display.inline =>
        match build_children cs (LayoutBox.new (BoxType.inline (Node.mk i computed cs))) with
        | Except.error e => Except.error e
        | Except.ok b => Except.ok (Option.some b)

/-- The child loop of `build_layout_tree`, threading the parent box. -/
def build_children : List Node → LayoutBox → Except String LayoutBox
  | [], acc => Except.ok acc
  | child :: rest, acc =>
    match child.computed_values with
    | Option.none => Except.error panicMsg
    | Option.some ccv =>
      match ccv.display with
      | Display.block =>
        match build_layout_tree child with
        | Except.error e => Except.error e
        | Except.ok (Option.some cb) => build_children rest (acc.pushChild cb)
        | Except.ok Option.none => build_children rest acc
      | Display.inline =>
        match build_layout_tree child with
        | Except.error e => Except.error e
        | Except.ok (Option.some cb) => build_children rest (acc.push_inline cb)
        | Except.ok Option.none => build_children rest acc
      | Display.none => build_children rest acc
end

/-! ### Derived notions used to state the spec claims -/

mutual
/-- All nodes of the styled subtree rooted at `n`, in preorder. -/
def Node.subtreeNodes : Node → List Node
  | .mk i c cs => .mk i c cs :: subtreeForest cs

/-- `subtreeNodes` over a forest, left to right. -/
def subtreeForest : List Node → List Node
  | [] => []
  | n :: ns => n.subtreeNodes ++ subtreeForest ns
end

/-- The strict descendants of a node: everything below it, itself excluded. -/
def Node.strictDescendants (n : Node) : List Node :=
  subtreeForest n.children

mutual
/-- The nodes the generator emits a box for: a node with resolved
non-`None` display, together with the visible nodes of its children;
a `display:None` (or unstyled) node contributes nothing. -/
def Node.visibleNodes : Node → List Node
  | .mk i c cs =>
    match c with
    | Option.none => []
    | Option.some cv =>
      match cv.display with
      | Display.none => []
      | _ => .mk i c cs :: visibleForest cs

/-- `visibleNodes` over a forest, left to right. -/
def visibleForest : List Node → List Node
  | [] => []
  | n :: ns => n.visibleNodes ++ visibleForest ns
end

mutual
/-- The source nodes referenced from a box tree, in preorder. -/
def LayoutBox.sourceNodes : LayoutBox → List Node
  | .mk _ bt cs =>
    (match bt with
     | BoxType.block n => [n]
     | BoxType.inline n => [n]
     | BoxType.anonymous => []) ++ sourceForest cs

/-- `sourceNodes` over a list of boxes, left to right. -/
def sourceForest : List LayoutBox → List Node
  | [] => []
  | b :: bs => b.sourceNodes ++ sourceForest bs
end

mutual
/-- All boxes of a box tree, in preorder (the box itself included). -/
def LayoutBox.subboxes : LayoutBox → List LayoutBox
  | .mk d bt cs => .mk d bt cs :: subboxesForest cs

/-- `subboxes` over a list of boxes, left to right. -/
def subboxesForest : List LayoutBox → List LayoutBox
  | [] => []
  | b :: bs => b.subboxes ++ subboxesForest bs
end

/-- The number of `Block`/`Inline` (non-`Anonymous`) boxes in a box tree. -/
def LayoutBox.countBlockInline (b : LayoutBox) : Nat :=
  b.subboxes.countP fun p => p.box_type.discriminant != BoxType.anonymous.discriminant

/-- Whether a node's own resolved display is `None` (false if unstyled). -/
def Node.displayIsNone (n : Node) : Bool :=
  match n.computed_values with
  | Option.some cv =>
    match cv.display with
    | Display.none => true
    | _ => false
  | Option.none => false

/-- Whether `n` is (by id) a strict descendant of some `display:None` node
listed in `ns`. -/
def elidedUnderNoneIn (ns : List Node) (n : Node) : Bool :=
  ns.any fun a => a.displayIsNone && decide (n.id ∈ a.strictDescendants.map Node.id)

/-- The claim-side visibility test: display not `None`, and not a strict
descendant of any `display:None` node of `ns`. -/
def notElidedIn (ns : List Node) (n : Node) : Bool :=
  !n.displayIsNone && !elidedUnderNoneIn ns n

/-- The claim-side count: nodes whose own display is not `None` and that
are not descendants of any `display:None` node of the tree. -/
def claimVisibleCount (root : Node) : Nat :=
  root.subtreeNodes.countP (notElidedIn root.subtreeNodes)

mutual
/-- Exactly the nodes whose computed values `build_layout_tree` reads:
the node itself, and, when its display is not `None`, recursively its
children.  `false` iff some read hits a node without computed values. -/
def Node.styledFrontier : Node → Bool
  | .mk _ c cs =>
    match c with
    | Option.none => false
    | Option.some cv =>
      match cv.display with
      | Display.none => true
      | _ => styledFrontierForest cs

/-- `styledFrontier` over a forest. -/
def styledFrontierForest : List Node → Bool
  | [] => true
  | n :: ns => n.styledFrontier && styledFrontierForest ns
end

mutual
/-- The spec precondition: every node of the subtree has computed values. -/
def Node.allStyled : Node → Bool
  | .mk _ c cs => c.isSome && allStyledForest cs

/-- `allStyled` over a forest. -/
def allStyledForest : List Node → Bool
  | [] => true
  | n :: ns => n.allStyled && allStyledForest ns
end

/-- The displays of the children that produce boxes: unstyled and
`display:None` children dropped, document order kept. -/
def visibleDisplays (cs : List Node) : List Display :=
  cs.filterMap fun c =>
    match c.computed_values with
    | Option.none => Option.none
    | Option.some cv =>
      match cv.display with
      | Display.none => Option.none
      | d => Option.some d

/-- The kind tags (discriminants) of a box's direct children. -/
def kindTags (b : LayoutBox) : List Nat :=
  b.children.map fun c => c.box_type.discriminant

/-- One step of the anonymous-box coalescing law on kind tags: a block
child appends a block tag; an inline child joins a trailing anonymous
tag or opens a new one. -/
def coalesceStep (ks : List Nat) (d : Display) : List Nat :=
  match d with
  | Display.block => ks ++ [0]
  | Display.inline =>
    if ks.getLast? = Option.some (BoxType.anonymous.discriminant) then ks
    else ks ++ [BoxType.anonymous.discriminant]
  | Display.none => ks

/-- The child kind-tag sequence predicted by the coalescing law. -/
def coalesceKinds (ds : List Display) : List Nat :=
  ds.foldl coalesceStep []

/-! ### A joint induction principle for `Node` and `List Node`,
and one for `LayoutBox` and `List LayoutBox`. -/

mutual
/-- Joint structural induction over a node and its children lists. -/
def nodeListRec {P : Node → Prop} {Q : List Node → Prop}
    (hmk : ∀ i c cs, Q cs → P (Node.mk i c cs))
    (hnil : Q [])
    (hcons : ∀ n ns, P n → Q ns → Q (n :: ns)) : ∀ n : Node, P n
  | .mk i c cs => hmk i c cs (nodeForestRec hmk hnil hcons cs)

/-- Forest part of `nodeListRec`. -/
def nodeForestRec {P : Node → Prop} {Q : List Node → Prop}
    (hmk : ∀ i c cs, Q cs → P (Node.mk i c cs))
    (hnil : Q [])
    (hcons : ∀ n ns, P n → Q ns → Q (n :: ns)) : ∀ ns : List Node, Q ns
  | [] => hnil
  | n :: ns =>
    hcons n ns (nodeListRec hmk hnil hcons n) (nodeForestRec hmk hnil hcons ns)
end

mutual
/-- Joint structural induction over a box and its children lists. -/
def boxListRec {P : LayoutBox → Prop} {Q : List LayoutBox → Prop}
    (hmk : ∀ d bt cs, Q cs → P (LayoutBox.mk d bt cs))
    (hnil : Q [])
    (hcons : ∀ b bs, P b → Q bs → Q (b :: bs)) : ∀ b : LayoutBox, P b
  | .mk d bt cs => hmk d bt cs (boxForestRec hmk hnil hcons cs)

/-- Forest part of `boxListRec`. -/
def boxForestRec {P : LayoutBox → Prop} {Q : List LayoutBox → Prop}
    (hmk : ∀ d bt cs, Q cs → P (LayoutBox.mk d bt cs))
    (hnil : Q [])
    (hcons : ∀ b bs, P b → Q bs → Q (b :: bs)) : ∀ bs : List LayoutBox, Q bs
  | [] => hnil
  | b :: bs =>
    hcons b bs (boxListRec hmk hnil hcons b) (boxForestRec hmk hnil hcons bs)
end

/-! ### Basic lemmas about the box model -/

@[simp]
theorem Node.id_mk (i c cs) : (Node.mk i c cs).id = i := rfl

@[simp]
theorem Node.computed_values_mk (i c cs) : (Node.mk i c cs).computed_values = c := rfl

@[simp]
theorem Node.nodeChildren_mk (i c cs) : (Node.mk i c cs).children = cs := rfl

@[simp]
theorem LayoutBox.dimensions_mk (d bt cs) : (LayoutBox.mk d bt cs).dimensions = d := rfl

@[simp]
theorem LayoutBox.box_type_mk (d bt cs) : (LayoutBox.mk d bt cs).box_type = bt := rfl

@[simp]
theorem LayoutBox.boxChildren_mk (d bt cs) : (LayoutBox.mk d bt cs).children = cs := rfl

theorem LayoutBox.eta (b : LayoutBox) : LayoutBox.mk b.dimensions b.box_type b.children = b := by
  cases b
  rfl

@[simp]
theorem LayoutBox.pushChild_box_type (b c : LayoutBox) : (b.pushChild c).box_type = b.box_type := rfl

@[simp]
theorem LayoutBox.pushChild_dimensions (b c : LayoutBox) :
    (b.pushChild c).dimensions = b.dimensions := rfl

@[simp]
theorem LayoutBox.pushChild_children (b c : LayoutBox) :
    (b.pushChild c).children = b.children ++ [c] := rfl

@[simp]
theorem LayoutBox.modifyLast_box_type (b : LayoutBox) (f) :
    (b.modifyLast f).box_type = b.box_type := rfl

@[simp]
theorem LayoutBox.modifyLast_dimensions (b : LayoutBox) (f) :
    (b.modifyLast f).dimensions = b.dimensions := rfl

@[simp]
theorem LayoutBox.modifyLast_children (b : LayoutBox) (f) :
    (b.modifyLast f).children = modifyLastList f b.children := rfl

theorem modifyLastList_concat (f : LayoutBox → LayoutBox) (xs : List LayoutBox) (x : LayoutBox) :
    modifyLastList f (xs ++ [x]) = xs ++ [f x] := by
  induction xs with
  | nil => rfl
  | cons a as ih =>
    cases as with
    | nil => rfl
    | cons b bs => simpa [modifyLastList] using ih

theorem LayoutBox.push_inline_box_type (b c : LayoutBox) :
    (b.push_inline c).box_type = b.box_type := by
  unfold LayoutBox.push_inline LayoutBox.get_inline_container
  cases hbt : b.box_type <;> simp [hbt]
  cases hl : b.children.getLast? <;> simp [hl]
  · exact hbt
  · split <;> simp [hbt]

theorem LayoutBox.push_inline_dimensions (b c : LayoutBox) :
    (b.push_inline c).dimensions = b.dimensions := by
  unfold LayoutBox.push_inline LayoutBox.get_inline_container
  cases hbt : b.box_type <;> simp [hbt]
  cases hl : b.children.getLast? <;> simp [hl]
  · split <;> simp

theorem subtreeForest_append (xs ys : List Node) :
    subtreeForest (xs ++ ys) = subtreeForest xs ++ subtreeForest ys := by
  induction xs with
  | nil => simp [subtreeForest]
  | cons n ns ih => simp [subtreeForest, ih]

theorem visibleForest_append (xs ys : List Node) :
    visibleForest (xs ++ ys) = visibleForest xs ++ visibleForest ys := by
  induction xs with
  | nil => simp [visibleForest]
  | cons n ns ih => simp [visibleForest, ih]

theorem sourceForest_append (xs ys : List LayoutBox) :
    sourceForest (xs ++ ys) = sourceForest xs ++ sourceForest ys := by
  induction xs with
  | nil => simp [sourceForest]
  | cons b bs ih => simp [sourceForest, ih]

theorem subboxesForest_append (xs ys : List LayoutBox) :
    subboxesForest (xs ++ ys) = subboxesForest xs ++ subboxesForest ys := by
  induction xs with
  | nil => simp [subboxesForest]
  | cons b bs ih => simp [subboxesForest, ih]

theorem LayoutBox.sourceNodes_pushChild (b c : LayoutBox) :
    (b.pushChild c).sourceNodes = b.sourceNodes ++ c.sourceNodes := by
  cases b with
  | mk d bt cs =>
    simp [LayoutBox.pushChild, LayoutBox.sourceNodes, sourceForest_append, sourceForest]

theorem LayoutBox.sourceNodes_eq (b : LayoutBox) :
    b.sourceNodes =
      (match b.box_type with
       | BoxType.block n => [n]
       | BoxType.inline n => [n]
       | BoxType.anonymous => []) ++ sourceForest b.children := by
  cases b
  rfl

theorem sourceForest_modifyLast_push (cs : List LayoutBox) (c : LayoutBox) (h : cs ≠ []) :
    sourceForest (modifyLastList (fun lc => lc.pushChild c) cs) =
      sourceForest cs ++ c.sourceNodes := by
  induction cs with
  | nil => exact absurd rfl h
  | cons a as ih =>
    cases as with
    | nil =>
      simp [modifyLastList, sourceForest, LayoutBox.sourceNodes_pushChild]
    | cons a2 as2 =>
      simp only [modifyLastList, sourceForest, ih (by simp), List.append_assoc]

theorem LayoutBox.new_sourceNodes (bt : BoxType) :
    (LayoutBox.new bt).sourceNodes =
      (match bt with
       | BoxType.block n => [n]
       | BoxType.inline n => [n]
       | BoxType.anonymous => []) := by
  simp [LayoutBox.new, LayoutBox.sourceNodes, sourceForest]

theorem LayoutBox.sourceNodes_push_inline (b c : LayoutBox) :
    (b.push_inline c).sourceNodes = b.sourceNodes ++ c.sourceNodes := by
  cases b with
  | mk d bt cs =>
    cases bt with
    | inline m =>
      simp [LayoutBox.push_inline, LayoutBox.get_inline_container,
        LayoutBox.sourceNodes_pushChild]
    | anonymous =>
      simp [LayoutBox.push_inline, LayoutBox.get_inline_container,
        LayoutBox.sourceNodes_pushChild]
    | block m =>
      cases hl : cs.getLast? with
      | none =>
        simp [LayoutBox.push_inline, LayoutBox.get_inline_container, hl,
          LayoutBox.modifyLast, LayoutBox.pushChild, LayoutBox.new, modifyLastList_concat,
          LayoutBox.sourceNodes, sourceForest_append, sourceForest]
      | some lc =>
        by_cases hd : lc.box_type.discriminant = BoxType.anonymous.discriminant
        · have hne : cs ≠ [] := by
            intro h
            rw [h] at hl
            simp at hl
          simp [LayoutBox.push_inline, LayoutBox.get_inline_container, hl, hd,
            LayoutBox.modifyLast, LayoutBox.sourceNodes,
            sourceForest_modifyLast_push _ _ hne]
        · simp [LayoutBox.push_inline, LayoutBox.get_inline_container, hl, hd,
            LayoutBox.modifyLast, LayoutBox.pushChild, LayoutBox.new, modifyLastList_concat,
            LayoutBox.sourceNodes, sourceForest_append, sourceForest,
            LayoutBox.sourceNodes_pushChild]

/-! ### Unfolding facts about `build_layout_tree` -/

theorem build_layout_tree_unstyled (n : Node) (h : n.computed_values = Option.none) :
    build_layout_tree n = Except.error panicMsg := by
  cases n with
  | mk i c cs =>
    simp only [Node.computed_values_mk] at h
    subst h
    simp [build_layout_tree]

theorem build_layout_tree_display_none (n : Node) (cv : ComputedValues)
    (h : n.computed_values = Option.some cv) (hd : cv.display = Display.none) :
    build_layout_tree n = Except.ok Option.none := by
  cases n with
  | mk i c cs =>
    simp only [Node.computed_values_mk] at h
    subst h
    simp [build_layout_tree, hd]

theorem build_layout_tree_display_block (n : Node) (cv : ComputedValues)
    (h : n.computed_values = Option.some cv) (hd : cv.display = Display.block) :
    build_layout_tree n =
      (build_children n.children (LayoutBox.new (BoxType.block n))).map Option.some := by
  cases n with
  | mk i c cs =>
    simp only [Node.computed_values_mk] at h
    subst h
    simp only [build_layout_tree, hd, Node.nodeChildren_mk]
    cases build_children cs (LayoutBox.new (BoxType.block (Node.mk i (Option.some cv) cs))) <;>
      simp [Except.map]

theorem build_layout_tree_display_inline (n : Node) (cv : ComputedValues)
    (h : n.computed_values = Option.some cv) (hd : cv.display = Display.inline) :
    build_layout_tree n =
      (build_children n.children (LayoutBox.new (BoxType.inline n))).map Option.some := by
  cases n with
  | mk i c cs =>
    simp only [Node.computed_values_mk] at h
    subst h
    simp only [build_layout_tree, hd, Node.nodeChildren_mk]
    cases build_children cs (LayoutBox.new (BoxType.inline (Node.mk i (Option.some cv) cs))) <;>
      simp [Except.map]

/-- The child loop never changes the parent box's kind tag or dimensions. -/
theorem build_children_preserves (cs : List Node) :
    ∀ acc b, build_children cs acc = Except.ok b →
      b.box_type = acc.box_type ∧ b.dimensions = acc.dimensions := by
  induction cs with
  | nil =>
    intro acc b h
    simp only [build_children] at h
    cases h
    exact ⟨rfl, rfl⟩
  | cons child rest ih =>
    intro acc b h
    simp only [build_children] at h
    split at h
    · simp at h
    · split at h
      · split at h
        · simp at h
        · obtain ⟨h1, h2⟩ := ih _ _ h
          simp at h1 h2
          exact ⟨h1, h2⟩
        · exact ih _ _ h
      · split at h
        · simp at h
        · obtain ⟨h1, h2⟩ := ih _ _ h
          rw [LayoutBox.push_inline_box_type] at h1
          rw [LayoutBox.push_inline_dimensions] at h2
          exact ⟨h1, h2⟩
        · exact ih _ _ h
      · exact ih _ _ h

/-- A build that yields no box means the node's own display was `None`. -/
theorem build_layout_tree_ok_none (n : Node)
    (h : build_layout_tree n = Except.ok Option.none) :
    ∃ cv, n.computed_values = Option.some cv ∧ cv.display = Display.none := by
  cases n with
  | mk i c cs =>
    cases c with
    | none =>
      rw [build_layout_tree_unstyled _ (by simp)] at h
      simp at h
    | some cv =>
      cases hd : cv.display with
      | none => exact ⟨cv, by simp, hd⟩
      | block =>
        rw [build_layout_tree_display_block _ cv (by simp) hd] at h
        cases hbc : build_children (Node.mk i (Option.some cv) cs).children
            (LayoutBox.new (BoxType.block (Node.mk i (Option.some cv) cs))) <;>
          rw [hbc] at h <;> simp [Except.map] at h
      | inline =>
        rw [build_layout_tree_display_inline _ cv (by simp) hd] at h
        cases hbc : build_children (Node.mk i (Option.some cv) cs).children
            (LayoutBox.new (BoxType.inline (Node.mk i (Option.some cv) cs))) <;>
          rw [hbc] at h <;> simp [Except.map] at h

/-- The box a build returns carries zeroed dimensions and the kind
dictated by the node's display, with a back-reference to the node. -/
theorem build_layout_tree_box_type (n : Node) (cv : ComputedValues) (b : LayoutBox)
    (hc : n.computed_values = Option.some cv)
    (hb : build_layout_tree n = Except.ok (Option.some b)) :
    b.dimensions = Dimensions.default ∧
      (cv.display = Display.block → b.box_type = BoxType.block n) ∧
      (cv.display = Display.inline → b.box_type = BoxType.inline n) := by
  cases hd : cv.display with
  | none =>
    rw [build_layout_tree_display_none n cv hc hd] at hb
    simp at hb
  | block =>
    rw [build_layout_tree_display_block n cv hc hd] at hb
    cases hbc : build_children n.children (LayoutBox.new (BoxType.block n)) with
    | error e => rw [hbc] at hb; simp [Except.map] at hb
    | ok val =>
      rw [hbc] at hb
      simp [Except.map] at hb
      subst hb
      obtain ⟨h1, h2⟩ := build_children_preserves _ _ _ hbc
      refine ⟨by simpa [LayoutBox.new] using h2, fun _ => by simpa [LayoutBox.new] using h1,
        fun hinl => ?_⟩
      simp at hinl
  | inline =>
    rw [build_layout_tree_display_inline n cv hc hd] at hb
    cases hbc : build_children n.children (LayoutBox.new (BoxType.inline n)) with
    | error e => rw [hbc] at hb; simp [Except.map] at hb
    | ok val =>
      rw [hbc] at hb
      simp [Except.map] at hb
      subst hb
      obtain ⟨h1, h2⟩ := build_children_preserves _ _ _ hbc
      refine ⟨by simpa [LayoutBox.new] using h2, fun hblk => ?_,
        fun _ => by simpa [LayoutBox.new] using h1⟩
      simp at hblk

/-- The build aborts exactly when the lazily visited frontier hits a node
without computed values: success is equivalent to `styledFrontier`. -/
theorem build_succeeds_iff :
    ∀ n : Node, (∃ r, build_layout_tree n = Except.ok r) ↔ n.styledFrontier = true := by
  refine nodeListRec
    (P := fun n => (∃ r, build_layout_tree n = Except.ok r) ↔ n.styledFrontier = true)
    (Q := fun cs => ∀ acc,
      (∃ b, build_children cs acc = Except.ok b) ↔ styledFrontierForest cs = true)
    ?_ ?_ ?_
  · intro i c cs hQ
    cases c with
    | none =>
      rw [build_layout_tree_unstyled _ (by simp)]
      simp [Node.styledFrontier]
    | some cv =>
      cases hd : cv.display with
      | none =>
        rw [build_layout_tree_display_none _ cv (by simp) hd]
        simp [Node.styledFrontier, hd]
      | block =>
        rw [build_layout_tree_display_block _ cv (by simp) hd]
        simp only [Node.styledFrontier, hd]
        rw [← hQ (LayoutBox.new (BoxType.block (Node.mk i (Option.some cv) cs)))]
        constructor
        · rintro ⟨r, hr⟩
          cases hbc : build_children (Node.mk i (Option.some cv) cs).children
              (LayoutBox.new (BoxType.block (Node.mk i (Option.some cv) cs))) with
          | error e => rw [hbc] at hr; simp [Except.map] at hr
          | ok b => exact ⟨b, by simpa using hbc⟩
        · rintro ⟨b, hb⟩
          refine ⟨Option.some b, ?_⟩
          simp only [Node.nodeChildren_mk]
          rw [hb]
          rfl
      | inline =>
        rw [build_layout_tree_display_inline _ cv (by simp) hd]
        simp only [Node.styledFrontier, hd]
        rw [← hQ (LayoutBox.new (BoxType.inline (Node.mk i (Option.some cv) cs)))]
        constructor
        · rintro ⟨r, hr⟩
          cases hbc : build_children (Node.mk i (Option.some cv) cs).children
              (LayoutBox.new (BoxType.inline (Node.mk i (Option.some cv) cs))) with
          | error e => rw [hbc] at hr; simp [Except.map] at hr
          | ok b => exact ⟨b, by simpa using hbc⟩
        · rintro ⟨b, hb⟩
          refine ⟨Option.some b, ?_⟩
          simp only [Node.nodeChildren_mk]
          rw [hb]
          rfl
  · intro acc
    simp [build_children, styledFrontierForest]
  · intro child ns hP hQ acc
    simp only [build_children, styledFrontierForest]
    cases hcv : child.computed_values with
    | none =>
      have hfc : child.styledFrontier = false := by
        cases child with
        | mk j cc ccs =>
          simp only [Node.computed_values_mk] at hcv
          subst hcv
          simp [Node.styledFrontier]
      simp [hfc]
    | some ccv =>
      cases hd : ccv.display with
      | none =>
        have hfc : child.styledFrontier = true := by
          cases child with
          | mk j cc ccs =>
            simp only [Node.computed_values_mk] at hcv
            subst hcv
            simp [Node.styledFrontier, hd]
        simp [hd, hfc, hQ acc]
      | block =>
        cases hbt : build_layout_tree child with
        | error e =>
          have hfc : child.styledFrontier = false := by
            by_contra hne
            rw [Bool.not_eq_false] at hne
            obtain ⟨r, hr⟩ := hP.mpr hne
            rw [hbt] at hr
            simp at hr
          simp [hd, hfc]
        | ok r =>
          have hfc : child.styledFrontier = true := hP.mp ⟨r, hbt⟩
          cases r with
          | none => simp [hd, hfc, hQ acc]
          | some cb => simp [hd, hfc, hQ (acc.pushChild cb)]
      | inline =>
        cases hbt : build_layout_tree child with
        | error e =>
          have hfc : child.styledFrontier = false := by
            by_contra hne
            rw [Bool.not_eq_false] at hne
            obtain ⟨r, hr⟩ := hP.mpr hne
            rw [hbt] at hr
            simp at hr
          simp [hd, hfc]
        | ok r =>
          have hfc : child.styledFrontier = true := hP.mp ⟨r, hbt⟩
          cases r with
          | none => simp [hd, hfc, hQ acc]
          | some cb => simp [hd, hfc, hQ (acc.push_inline cb)]

/-- The spec precondition (whole subtree styled) implies the frontier
condition actually read by the build. -/
theorem allStyled_styledFrontier :
    ∀ n : Node, n.allStyled = true → n.styledFrontier = true := by
  refine nodeListRec (P := fun n => n.allStyled = true → n.styledFrontier = true)
    (Q := fun cs => allStyledForest cs = true → styledFrontierForest cs = true) ?_ ?_ ?_
  · intro i c cs hQ h
    cases c with
    | none => simp [Node.allStyled] at h
    | some cv =>
      simp only [Node.allStyled, Option.isSome_some, Bool.true_and] at h
      cases hd : cv.display with
      | none => simp [Node.styledFrontier, hd]
      | block => simp [Node.styledFrontier, hd, hQ h]
      | inline => simp [Node.styledFrontier, hd, hQ h]
  · intro _
    rfl
  · intro n ns hP hQ h
    simp only [allStyledForest, Bool.and_eq_true] at h
    simp [styledFrontierForest, hP h.1, hQ h.2]

theorem Node.subtreeNodes_def (n : Node) : n.subtreeNodes = n :: subtreeForest n.children := by
  cases n
  rfl

theorem Node.self_mem_subtreeNodes (n : Node) : n ∈ n.subtreeNodes := by
  rw [Node.subtreeNodes_def]
  exact List.mem_cons_self _ _

theorem Node.visibleNodes_of_unstyled (n : Node) (h : n.computed_values = Option.none) :
    n.visibleNodes = [] := by
  cases n with
  | mk i c cs =>
    simp only [Node.computed_values_mk] at h
    subst h
    rfl

theorem Node.visibleNodes_of_display_none (n : Node) (cv : ComputedValues)
    (hc : n.computed_values = Option.some cv) (hd : cv.display = Display.none) :
    n.visibleNodes = [] := by
  cases n with
  | mk i c cs =>
    simp only [Node.computed_values_mk] at hc
    subst hc
    simp [Node.visibleNodes, hd]

theorem Node.visibleNodes_of_display_block (n : Node) (cv : ComputedValues)
    (hc : n.computed_values = Option.some cv) (hd : cv.display = Display.block) :
    n.visibleNodes = n :: visibleForest n.children := by
  cases n with
  | mk i c cs =>
    simp only [Node.computed_values_mk] at hc
    subst hc
    simp [Node.visibleNodes, hd]

theorem Node.visibleNodes_of_display_inline (n : Node) (cv : ComputedValues)
    (hc : n.computed_values = Option.some cv) (hd : cv.display = Display.inline) :
    n.visibleNodes = n :: visibleForest n.children := by
  cases n with
  | mk i c cs =>
    simp only [Node.computed_values_mk] at hc
    subst hc
    simp [Node.visibleNodes, hd]

/-- The visible nodes form a sublist of the subtree preorder. -/
theorem visibleNodes_sublist :
    ∀ n : Node, n.visibleNodes.Sublist n.subtreeNodes := by
  refine nodeListRec (P := fun n => n.visibleNodes.Sublist n.subtreeNodes)
    (Q := fun cs => (visibleForest cs).Sublist (subtreeForest cs)) ?_ ?_ ?_
  · intro i c cs hQ
    cases c with
    | none => simp [Node.visibleNodes, Node.subtreeNodes]
    | some cv =>
      cases hd : cv.display with
      | none => simp [Node.visibleNodes, hd, Node.subtreeNodes]
      | block =>
        simp only [Node.visibleNodes, hd, Node.subtreeNodes]
        exact List.Sublist.cons₂ _ hQ
      | inline =>
        simp only [Node.visibleNodes, hd, Node.subtreeNodes]
        exact List.Sublist.cons₂ _ hQ
  · simp [visibleForest, subtreeForest]
  · intro n ns hP hQ
    simp only [visibleForest, subtreeForest]
    exact List.Sublist.append hP hQ

/-- Forest version of `visibleNodes_sublist`. -/
theorem visibleForest_sublist (cs : List Node) :
    (visibleForest cs).Sublist (subtreeForest cs) := by
  induction cs with
  | nil => simp [visibleForest, subtreeForest]
  | cons n ns ih =>
    simp only [visibleForest, subtreeForest]
    exact List.Sublist.append (visibleNodes_sublist n) ih

/-- Subtree membership is transitive. -/
theorem subtreeNodes_trans :
    ∀ m : Node, ∀ n ∈ m.subtreeNodes, n.subtreeNodes ⊆ m.subtreeNodes := by
  refine nodeListRec (P := fun m => ∀ n ∈ m.subtreeNodes, n.subtreeNodes ⊆ m.subtreeNodes)
    (Q := fun cs => ∀ n ∈ subtreeForest cs, n.subtreeNodes ⊆ subtreeForest cs) ?_ ?_ ?_
  · intro i c cs hQ n hn
    rw [Node.subtreeNodes_def] at hn
    rcases List.mem_cons.mp hn with h | h
    · subst h
      exact fun x hx => hx
    · intro x hx
      rw [Node.subtreeNodes_def]
      exact List.mem_cons_of_mem _ (by simpa using hQ n (by simpa using h) hx)
  · intro n hn
    simp [subtreeForest] at hn
  · intro k ks hP hQ n hn
    simp only [subtreeForest] at hn ⊢
    rcases List.mem_append.mp hn with h | h
    · intro x hx
      exact List.mem_append_left _ (hP n h hx)
    · intro x hx
      exact List.mem_append_right _ (hQ n h hx)

/-- Forest version of `subtreeNodes_trans`. -/
theorem subtreeForest_trans (cs : List Node) :
    ∀ n ∈ subtreeForest cs, n.subtreeNodes ⊆ subtreeForest cs := by
  induction cs with
  | nil => intro n hn; simp [subtreeForest] at hn
  | cons k ks ih =>
    intro n hn
    simp only [subtreeForest] at hn ⊢
    rcases List.mem_append.mp hn with h | h
    · intro x hx
      exact List.mem_append_left _ (subtreeNodes_trans k n h hx)
    · intro x hx
      exact List.mem_append_right _ (ih n h hx)

/-- The strict descendants sit inside the subtree. -/
theorem strictDescendants_subset_subtreeNodes (n : Node) :
    n.strictDescendants ⊆ n.subtreeNodes := by
  rw [Node.subtreeNodes_def]
  exact fun x hx => List.mem_cons_of_mem _ hx

/-- The source nodes of a built box tree are exactly the visible nodes of
the input, in document (preorder) order. -/
theorem build_sourceNodes :
    ∀ n : Node, ∀ b, build_layout_tree n = Except.ok (Option.some b) →
      b.sourceNodes = n.visibleNodes := by
  refine nodeListRec
    (P := fun n => ∀ b, build_layout_tree n = Except.ok (Option.some b) →
      b.sourceNodes = n.visibleNodes)
    (Q := fun cs => ∀ acc b, build_children cs acc = Except.ok b →
      b.sourceNodes = acc.sourceNodes ++ visibleForest cs) ?_ ?_ ?_
  · intro i c cs hQ b hb
    cases c with
    | none =>
      rw [build_layout_tree_unstyled _ (by simp)] at hb
      simp at hb
    | some cv =>
      cases hd : cv.display with
      | none =>
        rw [build_layout_tree_display_none _ cv (by simp) hd] at hb
        simp at hb
      | block =>
        rw [build_layout_tree_display_block _ cv (by simp) hd] at hb
        cases hbc : build_children (Node.mk i (Option.some cv) cs).children
            (LayoutBox.new (BoxType.block (Node.mk i (Option.some cv) cs))) with
        | error e => rw [hbc] at hb; simp [Except.map] at hb
        | ok val =>
          rw [hbc] at hb
          simp [Except.map] at hb
          subst hb
          rw [hQ _ _ (by simpa using hbc)]
          rw [Node.visibleNodes_of_display_block _ cv (by simp) hd]
          simp [LayoutBox.new_sourceNodes]
      | inline =>
        rw [build_layout_tree_display_inline _ cv (by simp) hd] at hb
        cases hbc : build_children (Node.mk i (Option.some cv) cs).children
            (LayoutBox.new (BoxType.inline (Node.mk i (Option.some cv) cs))) with
        | error e => rw [hbc] at hb; simp [Except.map] at hb
        | ok val =>
          rw [hbc] at hb
          simp [Except.map] at hb
          subst hb
          rw [hQ _ _ (by simpa using hbc)]
          rw [Node.visibleNodes_of_display_inline _ cv (by simp) hd]
          simp [LayoutBox.new_sourceNodes]
  · intro acc b h
    simp only [build_children] at h
    cases h
    simp [visibleForest]
  · intro child ns hP hQ acc b h
    simp only [build_children] at h
    cases hcv : child.computed_values with
    | none => simp only [hcv] at h; simp at h
    | some ccv =>
      simp only [hcv] at h
      cases hd : ccv.display with
      | none =>
        simp only [hd] at h
        rw [hQ _ _ h]
        simp [visibleForest, Node.visibleNodes_of_display_none child ccv hcv hd]
      | block =>
        simp only [hd] at h
        cases hbt : build_layout_tree child with
        | error e => rw [hbt] at h; simp at h
        | ok r =>
          rw [hbt] at h
          cases r with
          | none =>
            simp only [] at h
            obtain ⟨cv', hc', hd'⟩ := build_layout_tree_ok_none child hbt
            rw [hQ _ _ h]
            simp [visibleForest, Node.visibleNodes_of_display_none child cv' hc' hd']
          | some cb =>
            simp only [] at h
            rw [hQ _ _ h, LayoutBox.sourceNodes_pushChild, hP cb hbt]
            simp [visibleForest]
      | inline =>
        simp only [hd] at h
        cases hbt : build_layout_tree child with
        | error e => rw [hbt] at h; simp at h
        | ok r =>
          rw [hbt] at h
          cases r with
          | none =>
            simp only [] at h
            obtain ⟨cv', hc', hd'⟩ := build_layout_tree_ok_none child hbt
            rw [hQ _ _ h]
            simp [visibleForest, Node.visibleNodes_of_display_none child cv' hc' hd']
          | some cb =>
            simp only [] at h
            rw [hQ _ _ h, LayoutBox.sourceNodes_push_inline, hP cb hbt]
            simp [visibleForest]

/-- With distinct node identities, no descendant of a `display:None` node
of the tree is ever a visible node. -/
theorem noneDescendants_not_visible :
    ∀ root : Node, (root.subtreeNodes.map Node.id).Nodup →
      ∀ n ∈ root.subtreeNodes, ∀ cv, n.computed_values = Option.some cv →
        cv.display = Display.none →
        ∀ d ∈ n.strictDescendants, d.id ∉ root.visibleNodes.map Node.id := by
  refine nodeListRec
    (P := fun root => (root.subtreeNodes.map Node.id).Nodup →
      ∀ n ∈ root.subtreeNodes, ∀ cv, n.computed_values = Option.some cv →
        cv.display = Display.none →
        ∀ d ∈ n.strictDescendants, d.id ∉ root.visibleNodes.map Node.id)
    (Q := fun cs => (((subtreeForest cs).map Node.id).Nodup →
      ∀ n ∈ subtreeForest cs, ∀ cv, n.computed_values = Option.some cv →
        cv.display = Display.none →
        ∀ d ∈ n.strictDescendants, d.id ∉ (visibleForest cs).map Node.id)) ?_ ?_ ?_
  · intro i c cs hQ hnd n hn cv hc hd0 d hdm
    rw [Node.subtreeNodes_def] at hn hnd
    simp only [Node.nodeChildren_mk, List.map_cons, Node.id_mk, List.nodup_cons] at hnd
    rcases List.mem_cons.mp hn with h | h
    · subst h
      rw [Node.visibleNodes_of_display_none _ cv hc hd0]
      simp
    · simp only [Node.nodeChildren_mk] at h
      have hdsub : d ∈ subtreeForest cs :=
        subtreeForest_trans cs n h (strictDescendants_subset_subtreeNodes n hdm)
      have hdq : d.id ∉ (visibleForest cs).map Node.id :=
        hQ hnd.2 n h cv hc hd0 d hdm
      have hdne : d.id ≠ i := by
        intro hid
        exact hnd.1 (hid ▸ List.mem_map_of_mem Node.id hdsub)
      cases c with
      | none =>
        rw [Node.visibleNodes_of_unstyled _ (by simp)]
        simp
      | some cv0 =>
        cases hd0' : cv0.display with
        | none =>
          rw [Node.visibleNodes_of_display_none _ cv0 (by simp) hd0']
          simp
        | block =>
          rw [Node.visibleNodes_of_display_block _ cv0 (by simp) hd0']
          simp only [Node.nodeChildren_mk, List.map_cons, Node.id_mk, List.mem_cons]
          rintro (h1 | h1)
          · exact hdne h1
          · exact hdq h1
        | inline =>
          rw [Node.visibleNodes_of_display_inline _ cv0 (by simp) hd0']
          simp only [Node.nodeChildren_mk, List.map_cons, Node.id_mk, List.mem_cons]
          rintro (h1 | h1)
          · exact hdne h1
          · exact hdq h1
  · intro hnd n hn
    simp [subtreeForest] at hn
  · intro k ks hP hQ hnd n hn cv hc hd0 d hdm
    simp only [subtreeForest] at hn
    simp only [subtreeForest, List.map_append, List.nodup_append] at hnd
    obtain ⟨hnd1, hnd2, hdisj⟩ := hnd
    simp only [visibleForest, List.map_append, List.mem_append]
    rcases List.mem_append.mp hn with h | h
    · rintro (hvk | hvks)
      · exact hP hnd1 n h cv hc hd0 d hdm hvk
      · have hdk : d ∈ k.subtreeNodes :=
          subtreeNodes_trans k n h (strictDescendants_subset_subtreeNodes n hdm)
        have hdid : d.id ∈ (subtreeForest ks).map Node.id := by
          obtain ⟨y, hy, hyid⟩ := List.mem_map.mp hvks
          exact hyid ▸ List.mem_map_of_mem Node.id ((visibleForest_sublist ks).subset hy)
        exact hdisj (List.mem_map_of_mem Node.id hdk) hdid
    · rintro (hvk | hvks)
      · have hdks : d ∈ subtreeForest ks :=
          subtreeForest_trans ks n h (strictDescendants_subset_subtreeNodes n hdm)
        have hdid : d.id ∈ k.subtreeNodes.map Node.id := by
          obtain ⟨y, hy, hyid⟩ := List.mem_map.mp hvk
          exact hyid ▸ List.mem_map_of_mem Node.id ((visibleNodes_sublist k).subset hy)
        exact hdisj hdid (List.mem_map_of_mem Node.id hdks)
      · exact hQ hnd2 n h cv hc hd0 d hdm hvks

/-- Counting non-anonymous boxes is counting source-node references. -/
theorem countBlockInline_eq_length_sourceNodes :
    ∀ b : LayoutBox, b.countBlockInline = b.sourceNodes.length := by
  refine boxListRec (P := fun b => b.countBlockInline = b.sourceNodes.length)
    (Q := fun bs =>
      (subboxesForest bs).countP
          (fun p => p.box_type.discriminant != BoxType.anonymous.discriminant) =
        (sourceForest bs).length) ?_ ?_ ?_
  · intro d bt cs hQ
    simp only [LayoutBox.countBlockInline, LayoutBox.subboxes, List.countP_cons]
    rw [hQ]
    cases bt with
    | block m =>
      simp only [LayoutBox.sourceNodes, List.length_append]
      simp [BoxType.discriminant]
      omega
    | inline m =>
      simp only [LayoutBox.sourceNodes, List.length_append]
      simp [BoxType.discriminant]
      omega
    | anonymous =>
      simp only [LayoutBox.sourceNodes, List.length_append]
      simp [BoxType.discriminant]
  · simp [subboxesForest, sourceForest]
  · intro b bs hP hQ
    simp only [subboxesForest, sourceForest, List.countP_append, List.length_append]
    rw [← hP, ← hQ]
    rfl

theorem Node.displayIsNone_of_unstyled (n : Node) (h : n.computed_values = Option.none) :
    n.displayIsNone = false := by
  simp [Node.displayIsNone, h]

theorem Node.displayIsNone_true (n : Node) (cv : ComputedValues)
    (hc : n.computed_values = Option.some cv) (hd : cv.display = Display.none) :
    n.displayIsNone = true := by
  simp [Node.displayIsNone, hc, hd]

theorem Node.displayIsNone_false (n : Node) (cv : ComputedValues)
    (hc : n.computed_values = Option.some cv) (hd : cv.display ≠ Display.none) :
    n.displayIsNone = false := by
  cases hdv : cv.display with
  | block => simp [Node.displayIsNone, hc, hdv]
  | inline => simp [Node.displayIsNone, hc, hdv]
  | none => exact absurd hdv hd

theorem elidedUnderNoneIn_append (xs ys : List Node) (n : Node) :
    elidedUnderNoneIn (xs ++ ys) n = (elidedUnderNoneIn xs n || elidedUnderNoneIn ys n) := by
  simp [elidedUnderNoneIn]

theorem elidedUnderNoneIn_cons (a : Node) (xs : List Node) (n : Node) :
    elidedUnderNoneIn (a :: xs) n =
      ((a.displayIsNone && decide (n.id ∈ a.strictDescendants.map Node.id)) ||
        elidedUnderNoneIn xs n) := by
  simp [elidedUnderNoneIn]

/-- If the ancestor list is subtree-closed, a node reported elided has its
id inside the list. -/
theorem elidedUnderNoneIn_id_mem (ns : List Node)
    (hclosed : ∀ a ∈ ns, a.subtreeNodes ⊆ ns) (m : Node)
    (h : elidedUnderNoneIn ns m = true) : m.id ∈ ns.map Node.id := by
  simp only [elidedUnderNoneIn, List.any_eq_true, Bool.and_eq_true, decide_eq_true_eq] at h
  obtain ⟨a, ha, _, hmem⟩ := h
  obtain ⟨y, hy, hyid⟩ := List.mem_map.mp hmem
  exact hyid ▸ List.mem_map_of_mem Node.id
    (hclosed a ha (strictDescendants_subset_subtreeNodes a hy))

/-- Under the frontier condition and distinct ids, the visible nodes are
exactly the subtree nodes that pass the claim-side visibility test. -/
theorem visibleNodes_eq_filter :
    ∀ root : Node, (root.subtreeNodes.map Node.id).Nodup →
      root.styledFrontier = true →
      root.visibleNodes = root.subtreeNodes.filter (notElidedIn root.subtreeNodes) := by
  refine nodeListRec
    (P := fun root => (root.subtreeNodes.map Node.id).Nodup →
      root.styledFrontier = true →
      root.visibleNodes = root.subtreeNodes.filter (notElidedIn root.subtreeNodes))
    (Q := fun cs => ((subtreeForest cs).map Node.id).Nodup →
      styledFrontierForest cs = true →
      visibleForest cs = (subtreeForest cs).filter (notElidedIn (subtreeForest cs))) ?_ ?_ ?_
  · intro i c cs hQ hnd hf
    cases c with
    | none => simp [Node.styledFrontier] at hf
    | some cv =>
      rw [Node.subtreeNodes_def] at hnd ⊢
      simp only [Node.nodeChildren_mk] at hnd ⊢
      set root := Node.mk i (Option.some cv) cs with hroot
      simp only [List.map_cons, List.nodup_cons] at hnd
      obtain ⟨hid_notin, hnd2⟩ := hnd
      cases hd : cv.display with
      | none =>
        rw [Node.visibleNodes_of_display_none root cv (by simp [hroot]) hd]
        symm
        rw [List.filter_eq_nil_iff]
        intro m hm
        rcases List.mem_cons.mp hm with h | h
        · subst h
          simp [notElidedIn, Node.displayIsNone_true root cv (by simp [hroot]) hd]
        · have : elidedUnderNoneIn (root :: subtreeForest cs) m = true := by
            rw [elidedUnderNoneIn_cons]
            apply Bool.or_eq_true_iff.mpr
            left
            rw [Node.displayIsNone_true root cv (by simp [hroot]) hd]
            simp only [Bool.true_and, decide_eq_true_eq]
            exact List.mem_map_of_mem Node.id (by simpa [hroot, Node.strictDescendants] using h)
          simp [notElidedIn, this]
      | block =>
        rw [Node.visibleNodes_of_display_block root cv (by simp [hroot]) hd]
        have hfcs : styledFrontierForest cs = true := by
          have := hf
          rw [hroot] at this
          simpa [Node.styledFrontier, hd] using this
        have hpred_root : notElidedIn (root :: subtreeForest cs) root = true := by
          simp only [notElidedIn, Bool.and_eq_true, Bool.not_eq_true']
          refine ⟨Node.displayIsNone_false root cv (by simp [hroot]) (by simp [hd]), ?_⟩
          rw [elidedUnderNoneIn_cons]
          apply Bool.or_eq_false_iff.mpr
          constructor
          · rw [Node.displayIsNone_false root cv (by simp [hroot]) (by simp [hd])]
            rfl
          · apply Bool.not_eq_true _ |>.mp
            intro habs
            exact hid_notin (elidedUnderNoneIn_id_mem (subtreeForest cs)
              (subtreeForest_trans cs) root habs)
        rw [List.filter_cons_of_pos hpred_root]
        congr 1
        rw [List.filter_congr (fun m hm => ?_)]
        · exact hQ hnd2 hfcs
        · rw [notElidedIn, notElidedIn, elidedUnderNoneIn_cons,
            Node.displayIsNone_false root cv (by simp [hroot]) (by simp [hd])]
          simp [hroot, Node.nodeChildren_mk]
      | inline =>
        rw [Node.visibleNodes_of_display_inline root cv (by simp [hroot]) hd]
        have hfcs : styledFrontierForest cs = true := by
          have := hf
          rw [hroot] at this
          simpa [Node.styledFrontier, hd] using this
        have hpred_root : notElidedIn (root :: subtreeForest cs) root = true := by
          simp only [notElidedIn, Bool.and_eq_true, Bool.not_eq_true']
          refine ⟨Node.displayIsNone_false root cv (by simp [hroot]) (by simp [hd]), ?_⟩
          rw [elidedUnderNoneIn_cons]
          apply Bool.or_eq_false_iff.mpr
          constructor
          · rw [Node.displayIsNone_false root cv (by simp [hroot]) (by simp [hd])]
            rfl
          · apply Bool.not_eq_true _ |>.mp
            intro habs
            exact hid_notin (elidedUnderNoneIn_id_mem (subtreeForest cs)
              (subtreeForest_trans cs) root habs)
        rw [List.filter_cons_of_pos hpred_root]
        congr 1
        rw [List.filter_congr (fun m hm => ?_)]
        · exact hQ hnd2 hfcs
        · rw [notElidedIn, notElidedIn, elidedUnderNoneIn_cons,
            Node.displayIsNone_false root cv (by simp [hroot]) (by simp [hd])]
          simp [hroot, Node.nodeChildren_mk]
  · intro _ _
    simp [visibleForest, subtreeForest]
  · intro k ks hP hQ hnd hf
    simp only [subtreeForest, visibleForest] at hnd ⊢
    simp only [List.map_append, List.nodup_append] at hnd
    obtain ⟨hnd1, hnd2, hdisj⟩ := hnd
    simp only [styledFrontierForest, Bool.and_eq_true] at hf
    rw [List.filter_append]
    congr 1
    · rw [List.filter_congr (fun m hm => ?_)]
      · exact hP hnd1 hf.1
      · rw [notElidedIn, notElidedIn, elidedUnderNoneIn_append]
        have : elidedUnderNoneIn (subtreeForest ks) m = false := by
          rw [Bool.eq_false_iff]
          intro habs
          exact hdisj (List.mem_map_of_mem Node.id hm)
            (elidedUnderNoneIn_id_mem (subtreeForest ks) (subtreeForest_trans ks) m habs)
        rw [this, Bool.or_false]
    · rw [List.filter_congr (fun m hm => ?_)]
      · exact hQ hnd2 hf.2
      · rw [notElidedIn, notElidedIn, elidedUnderNoneIn_append]
        have : elidedUnderNoneIn k.subtreeNodes m = false := by
          rw [Bool.eq_false_iff]
          intro habs
          exact hdisj (elidedUnderNoneIn_id_mem k.subtreeNodes (subtreeNodes_trans k) m habs)
            (List.mem_map_of_mem Node.id hm)
        rw [this, Bool.false_or]

theorem map_discriminant_modifyLastList (f : LayoutBox → LayoutBox)
    (hf : ∀ x, (f x).box_type = x.box_type) :
    ∀ cs : List LayoutBox,
      (modifyLastList f cs).map (fun c => c.box_type.discriminant) =
        cs.map (fun c => c.box_type.discriminant) := by
  intro cs
  induction cs with
  | nil => rfl
  | cons a as ih =>
    cases as with
    | nil => simp [modifyLastList, hf]
    | cons a2 as2 =>
      simp only [modifyLastList, List.map_cons]
      rw [ih]
      simp

theorem kindTags_pushChild (b c : LayoutBox) :
    kindTags (b.pushChild c) = kindTags b ++ [c.box_type.discriminant] := by
  simp [kindTags]

theorem kindTags_getLast? (b : LayoutBox) :
    (kindTags b).getLast? = b.children.getLast?.map (fun c => c.box_type.discriminant) := by
  simp [kindTags, List.getLast?_map]

/-- Pushing an inline-level box through the inline container of a `Block`
box transforms the child kind tags by one coalescing step. -/
theorem kindTags_push_inline_of_block (b c : LayoutBox) (m : Node)
    (hbt : b.box_type = BoxType.block m) :
    kindTags (b.push_inline c) = coalesceStep (kindTags b) Display.inline := by
  cases b with
  | mk d bt cs =>
    simp only [LayoutBox.box_type_mk] at hbt
    subst hbt
    cases hl : cs.getLast? with
    | none =>
      simp [LayoutBox.push_inline, LayoutBox.get_inline_container, hl, LayoutBox.modifyLast,
        modifyLastList_concat, LayoutBox.pushChild, LayoutBox.new, kindTags,
        List.getLast?_map, BoxType.discriminant, coalesceStep]
    | some lc =>
      by_cases hd : lc.box_type.discriminant = BoxType.anonymous.discriminant
      · have hmap := map_discriminant_modifyLastList (fun x => x.pushChild c)
          (fun x => LayoutBox.pushChild_box_type x c) cs
        simp [LayoutBox.push_inline, LayoutBox.get_inline_container, hl, hd,
          LayoutBox.modifyLast, kindTags, coalesceStep, List.getLast?_map, hmap]
      · simp [LayoutBox.push_inline, LayoutBox.get_inline_container, hl, hd,
          LayoutBox.modifyLast, modifyLastList_concat, LayoutBox.pushChild, LayoutBox.new,
          kindTags, coalesceStep, List.getLast?_map]

/-- The child loop of a `Block` parent transforms the child kind tags of
the accumulator by the coalescing law over the visible child displays. -/
theorem build_children_kindTags (cs : List Node) :
    ∀ (acc : LayoutBox) (m : Node), acc.box_type = BoxType.block m →
      ∀ b, build_children cs acc = Except.ok b →
        kindTags b = (visibleDisplays cs).foldl coalesceStep (kindTags acc) := by
  induction cs with
  | nil =>
    intro acc m hbt b h
    simp only [build_children] at h
    cases h
    simp [visibleDisplays]
  | cons child rest ih =>
    intro acc m hbt b h
    simp only [build_children] at h
    cases hcv : child.computed_values with
    | none => simp only [hcv] at h; simp at h
    | some ccv =>
      simp only [hcv] at h
      cases hd : ccv.display with
      | none =>
        simp only [hd] at h
        rw [ih acc m hbt b h]
        simp [visibleDisplays, hcv, hd]
      | block =>
        simp only [hd] at h
        cases hbt2 : build_layout_tree child with
        | error e => rw [hbt2] at h; simp at h
        | ok r =>
          rw [hbt2] at h
          cases r with
          | none =>
            obtain ⟨cv', hc', hd'⟩ := build_layout_tree_ok_none child hbt2
            rw [hcv] at hc'
            cases hc'
            rw [hd] at hd'
            simp at hd'
          | some cb =>
            simp only [] at h
            have hcb : cb.box_type = BoxType.block child :=
              (build_layout_tree_box_type child ccv cb hcv hbt2).2.1 hd
            rw [ih (acc.pushChild cb) m (by simp [hbt]) b h, kindTags_pushChild, hcb]
            simp [visibleDisplays, hcv, hd, BoxType.discriminant, coalesceStep]
      | inline =>
        simp only [hd] at h
        cases hbt2 : build_layout_tree child with
        | error e => rw [hbt2] at h; simp at h
        | ok r =>
          rw [hbt2] at h
          cases r with
          | none =>
            obtain ⟨cv', hc', hd'⟩ := build_layout_tree_ok_none child hbt2
            rw [hcv] at hc'
            cases hc'
            rw [hd] at hd'
            simp at hd'
          | some cb =>
            simp only [] at h
            rw [ih (acc.push_inline cb) m
                (by rw [LayoutBox.push_inline_box_type]; exact hbt) b h,
              kindTags_push_inline_of_block acc cb m hbt]
            simp [visibleDisplays, hcv, hd]

/-- An element of a list survives `modifyLastList` unless it is the last
element. -/
theorem mem_modifyLastList (f : LayoutBox → LayoutBox) (cs : List LayoutBox) (x : LayoutBox)
    (hx : x ∈ cs) : x ∈ modifyLastList f cs ∨ cs.getLast? = Option.some x := by
  induction cs with
  | nil => simp at hx
  | cons a as ih =>
    cases as with
    | nil =>
      simp at hx
      subst hx
      simp
    | cons a2 as2 =>
      rcases List.mem_cons.mp hx with h | h
      · subst h
        exact Or.inl (by simp [modifyLastList])
      · rcases ih h with h1 | h1
        · exact Or.inl (by simp [modifyLastList, h1])
        · exact Or.inr (by simpa [List.getLast?] using h1)

/-- A non-anonymous child survives an inline push. -/
theorem mem_children_push_inline (b c x : LayoutBox) (hx : x ∈ b.children)
    (hxa : x.box_type.discriminant ≠ BoxType.anonymous.discriminant) :
    x ∈ (b.push_inline c).children := by
  cases b with
  | mk d bt cs =>
    simp only [LayoutBox.boxChildren_mk] at hx
    cases bt with
    | inline m =>
      simp [LayoutBox.push_inline, LayoutBox.get_inline_container, LayoutBox.pushChild, hx]
    | anonymous =>
      simp [LayoutBox.push_inline, LayoutBox.get_inline_container, LayoutBox.pushChild, hx]
    | block m =>
      cases hl : cs.getLast? with
      | none =>
        simp [LayoutBox.push_inline, LayoutBox.get_inline_container, hl, LayoutBox.modifyLast,
          LayoutBox.pushChild, modifyLastList_concat, hx]
      | some lc =>
        by_cases hd : lc.box_type.discriminant = BoxType.anonymous.discriminant
        · have hxlc : x ≠ lc := by
            intro hxe
            exact hxa (hxe ▸ hd)
          rcases mem_modifyLastList (fun y => y.pushChild c) cs x hx with h1 | h1
          · simp [LayoutBox.push_inline, LayoutBox.get_inline_container, hl, hd,
              LayoutBox.modifyLast, h1]
          · rw [hl] at h1
            exact absurd (Option.some.inj h1).symm hxlc
        · simp [LayoutBox.push_inline, LayoutBox.get_inline_container, hl, hd,
            LayoutBox.modifyLast, LayoutBox.pushChild, modifyLastList_concat, hx]

/-- The child loop never removes a non-anonymous child already present. -/
theorem build_children_mem_mono (cs : List Node) :
    ∀ acc b x, x ∈ acc.children →
      x.box_type.discriminant ≠ BoxType.anonymous.discriminant →
      build_children cs acc = Except.ok b → x ∈ b.children := by
  induction cs with
  | nil =>
    intro acc b x hx hxa h
    simp only [build_children] at h
    cases h
    exact hx
  | cons child rest ih =>
    intro acc b x hx hxa h
    simp only [build_children] at h
    split at h
    · simp at h
    · split at h
      · split at h
        · simp at h
        · exact ih _ _ x (by simp [hx]) hxa h
        · exact ih _ _ x hx hxa h
      · split at h
        · simp at h
        · exact ih _ _ x (mem_children_push_inline _ _ x hx hxa) hxa h
        · exact ih _ _ x hx hxa h
      · exact ih _ _ x hx hxa h

/-- Any block-display child that produces a box ends up a direct child of
the accumulator. -/
theorem build_children_block_child_mem (cs : List Node) :
    ∀ acc b, build_children cs acc = Except.ok b →
      ∀ c ∈ cs, ∀ ccv cb, c.computed_values = Option.some ccv →
        ccv.display = Display.block →
        build_layout_tree c = Except.ok (Option.some cb) → cb ∈ b.children := by
  induction cs with
  | nil =>
    intro acc b h c hc
    simp at hc
  | cons child rest ih =>
    intro acc b h c hc ccv cb hccv hd hcb
    simp only [build_children] at h
    rcases List.mem_cons.mp hc with hceq | hcmem
    · subst hceq
      rw [hccv] at h
      simp only [hd] at h
      rw [hcb] at h
      simp only [] at h
      have hcbbt : cb.box_type = BoxType.block c :=
        (build_layout_tree_box_type c ccv cb hccv hcb).2.1 hd
      refine build_children_mem_mono rest _ b cb ?_ ?_ h
      · simp
      · rw [hcbbt]
        simp [BoxType.discriminant]
    · cases hcv : child.computed_values with
      | none => simp only [hcv] at h; simp at h
      | some ccv2 =>
        simp only [hcv] at h
        cases hd2 : ccv2.display with
        | none =>
          simp only [hd2] at h
          exact ih _ _ h c hcmem ccv cb hccv hd hcb
        | block =>
          simp only [hd2] at h
          cases hbt2 : build_layout_tree child with
          | error e => rw [hbt2] at h; simp at h
          | ok r =>
            rw [hbt2] at h
            cases r with
            | none => exact ih _ _ h c hcmem ccv cb hccv hd hcb
            | some cb2 => exact ih _ _ h c hcmem ccv cb hccv hd hcb
        | inline =>
          simp only [hd2] at h
          cases hbt2 : build_layout_tree child with
          | error e => rw [hbt2] at h; simp at h
          | ok r =>
            rw [hbt2] at h
            cases r with
            | none => exact ih _ _ h c hcmem ccv cb hccv hd hcb
            | some cb2 => exact ih _ _ h c hcmem ccv cb hccv hd hcb

theorem LayoutBox.subboxes_def (b : LayoutBox) :
    b.subboxes = b :: subboxesForest b.children := by
  cases b
  rfl

theorem LayoutBox.self_mem_subboxes (b : LayoutBox) : b ∈ b.subboxes := by
  rw [LayoutBox.subboxes_def]
  exact List.mem_cons_self _ _

theorem mem_subboxes_of_mem_forest (b p : LayoutBox) (hp : p ∈ subboxesForest b.children) :
    p ∈ b.subboxes := by
  rw [LayoutBox.subboxes_def]
  exact List.mem_cons_of_mem _ hp

theorem mem_subboxesForest_self (cs : List LayoutBox) (x : LayoutBox) (hx : x ∈ cs) :
    x ∈ subboxesForest cs := by
  induction cs with
  | nil => simp at hx
  | cons a as ih =>
    simp only [subboxesForest, List.mem_append]
    rcases List.mem_cons.mp hx with h | h
    · exact Or.inl (h ▸ LayoutBox.self_mem_subboxes a)
    · exact Or.inr (ih h)

theorem BoxType.discriminant_eq_anonymous (bt : BoxType)
    (h : bt.discriminant = BoxType.anonymous.discriminant) : bt = BoxType.anonymous := by
  cases bt with
  | block m => simp [BoxType.discriminant] at h
  | inline m => simp [BoxType.discriminant] at h
  | anonymous => rfl

/-- Membership after rewriting the last element with an appended child. -/
theorem mem_subboxesForest_modifyLastList_push (cs : List LayoutBox) (c p : LayoutBox)
    (hp : p ∈ subboxesForest (modifyLastList (fun y => y.pushChild c) cs)) :
    p ∈ subboxesForest cs ∨ p ∈ c.subboxes ∨
      ∃ lc, cs.getLast? = Option.some lc ∧ p = lc.pushChild c := by
  induction cs with
  | nil => simp [modifyLastList, subboxesForest] at hp
  | cons a as ih =>
    cases as with
    | nil =>
      simp only [modifyLastList, subboxesForest, List.append_nil] at hp
      rw [LayoutBox.subboxes_def] at hp
      rcases List.mem_cons.mp hp with h | h
      · exact Or.inr (Or.inr ⟨a, by simp, h⟩)
      · simp only [LayoutBox.pushChild_children, subboxesForest_append] at h
        rcases List.mem_append.mp h with h1 | h1
        · refine Or.inl ?_
          simp only [subboxesForest, List.append_nil]
          exact mem_subboxes_of_mem_forest a p h1
        · simp only [subboxesForest, List.append_nil] at h1
          exact Or.inr (Or.inl h1)
    | cons a2 as2 =>
      simp only [modifyLastList, subboxesForest, List.mem_append] at hp
      rcases hp with h | h
      · refine Or.inl ?_
        rw [show subboxesForest (a :: a2 :: as2) = a.subboxes ++ subboxesForest (a2 :: as2)
          from rfl]
        exact List.mem_append.mpr (Or.inl h)
      · rcases ih h with h1 | h1 | ⟨lc, hlc, hpe⟩
        · refine Or.inl ?_
          rw [show subboxesForest (a :: a2 :: as2) = a.subboxes ++ subboxesForest (a2 :: as2)
            from rfl]
          exact List.mem_append.mpr (Or.inr h1)
        · exact Or.inr (Or.inl h1)
        · exact Or.inr (Or.inr ⟨lc, by simpa [List.getLast?] using hlc, hpe⟩)

/-- Membership in the subboxes of a `pushChild` result. -/
theorem mem_subboxes_pushChild (b c p : LayoutBox) (hp : p ∈ (b.pushChild c).subboxes) :
    p = b.pushChild c ∨ p ∈ subboxesForest b.children ∨ p ∈ c.subboxes := by
  rw [LayoutBox.subboxes_def] at hp
  rcases List.mem_cons.mp hp with h | h
  · exact Or.inl h
  · simp only [LayoutBox.pushChild_children, subboxesForest_append] at h
    rcases List.mem_append.mp h with h1 | h1
    · exact Or.inr (Or.inl h1)
    · simp only [subboxesForest, List.append_nil] at h1
      exact Or.inr (Or.inr h1)

/-- On a non-`Block` box the inline push is a plain child push. -/
theorem push_inline_of_not_block (b c : LayoutBox)
    (h : ∀ m, b.box_type ≠ BoxType.block m) : b.push_inline c = b.pushChild c := by
  cases hbt : b.box_type with
  | block m => exact absurd hbt (h m)
  | inline m => simp [LayoutBox.push_inline, LayoutBox.get_inline_container, hbt]
  | anonymous => simp [LayoutBox.push_inline, LayoutBox.get_inline_container, hbt]

/-- Membership in the subboxes of an inline push into a `Block` box. -/
theorem mem_subboxes_push_inline_block (b c p : LayoutBox) (m : Node)
    (hbt : b.box_type = BoxType.block m) (hp : p ∈ (b.push_inline c).subboxes) :
    p = b.push_inline c ∨ p ∈ subboxesForest b.children ∨ p ∈ c.subboxes ∨
      (∃ lc, b.children.getLast? = Option.some lc ∧ lc.box_type = BoxType.anonymous ∧
        p = lc.pushChild c) ∨
      p = LayoutBox.mk Dimensions.default BoxType.anonymous [c] := by
  cases b with
  | mk d bt cs =>
    simp only [LayoutBox.box_type_mk] at hbt
    subst hbt
    cases hl : cs.getLast? with
    | none =>
      rw [show (LayoutBox.mk d (BoxType.block m) cs).push_inline c =
          (LayoutBox.mk d (BoxType.block m) cs).pushChild
            ((LayoutBox.new BoxType.anonymous).pushChild c) from by
        simp [LayoutBox.push_inline, LayoutBox.get_inline_container, hl, LayoutBox.modifyLast,
          LayoutBox.pushChild, modifyLastList_concat, LayoutBox.new]] at hp
      rcases mem_subboxes_pushChild _ _ p hp with h | h | h
      · refine Or.inl ?_
        rw [h]
        simp [LayoutBox.push_inline, LayoutBox.get_inline_container, hl, LayoutBox.modifyLast,
          LayoutBox.pushChild, modifyLastList_concat, LayoutBox.new]
      · exact Or.inr (Or.inl h)
      · rw [LayoutBox.subboxes_def] at h
        rcases List.mem_cons.mp h with h1 | h1
        · refine Or.inr (Or.inr (Or.inr (Or.inr ?_)))
          rw [h1]
          simp [LayoutBox.pushChild, LayoutBox.new]
        · simp only [LayoutBox.pushChild_children, LayoutBox.new, LayoutBox.boxChildren_mk,
            List.nil_append, subboxesForest, List.append_nil] at h1
          exact Or.inr (Or.inr (Or.inl h1))
    | some lc =>
      by_cases hd : lc.box_type.discriminant = BoxType.anonymous.discriminant
      · have hpi : (LayoutBox.mk d (BoxType.block m) cs).push_inline c =
            LayoutBox.mk d (BoxType.block m) (modifyLastList (fun y => y.pushChild c) cs) := by
          simp [LayoutBox.push_inline, LayoutBox.get_inline_container, hl, hd,
            LayoutBox.modifyLast]
        rw [hpi, LayoutBox.subboxes_def] at hp
        rcases List.mem_cons.mp hp with h | h
        · exact Or.inl (by rw [hpi]; exact h)
        · simp only [LayoutBox.boxChildren_mk] at h
          rcases mem_subboxesForest_modifyLastList_push cs c p h with h1 | h1 | ⟨lc', hlc', hpe⟩
          · exact Or.inr (Or.inl h1)
          · exact Or.inr (Or.inr (Or.inl h1))
          · rw [hl] at hlc'
            refine Or.inr (Or.inr (Or.inr (Or.inl ⟨lc, by simp [hl], ?_, ?_⟩)))
            · exact BoxType.discriminant_eq_anonymous _ hd
            · rw [hpe, (Option.some.inj hlc')]
      · rw [show (LayoutBox.mk d (BoxType.block m) cs).push_inline c =
            (LayoutBox.mk d (BoxType.block m) cs).pushChild
              ((LayoutBox.new BoxType.anonymous).pushChild c) from by
          simp [LayoutBox.push_inline, LayoutBox.get_inline_container, hl, hd,
            LayoutBox.modifyLast, LayoutBox.pushChild, modifyLastList_concat,
            LayoutBox.new]] at hp
        rcases mem_subboxes_pushChild _ _ p hp with h | h | h
        · refine Or.inl ?_
          rw [h]
          simp [LayoutBox.push_inline, LayoutBox.get_inline_container, hl, hd,
            LayoutBox.modifyLast, LayoutBox.pushChild, modifyLastList_concat, LayoutBox.new]
        · exact Or.inr (Or.inl h)
        · rw [LayoutBox.subboxes_def] at h
          rcases List.mem_cons.mp h with h1 | h1
          · refine Or.inr (Or.inr (Or.inr (Or.inr ?_)))
            rw [h1]
            simp [LayoutBox.pushChild, LayoutBox.new]
          · simp only [LayoutBox.pushChild_children, LayoutBox.new, LayoutBox.boxChildren_mk,
              List.nil_append, subboxesForest, List.append_nil] at h1
            exact Or.inr (Or.inr (Or.inl h1))

/-- Invariant: every `Anonymous` box hangs under a `Block` box. -/
def AnonOnlyUnderBlock (b : LayoutBox) : Prop :=
  ∀ p ∈ b.subboxes, ∀ c ∈ p.children, c.box_type = BoxType.anonymous →
    ∃ m, p.box_type = BoxType.block m

/-- Invariant: every child of an `Anonymous` box is an `Inline` box. -/
def AnonChildrenInline (b : LayoutBox) : Prop :=
  ∀ p ∈ b.subboxes, p.box_type = BoxType.anonymous →
    ∀ c ∈ p.children, ∃ m, c.box_type = BoxType.inline m

theorem AnonOnlyUnderBlock_new (bt : BoxType) : AnonOnlyUnderBlock (LayoutBox.new bt) := by
  intro p hp c hc
  rw [LayoutBox.subboxes_def] at hp
  simp only [LayoutBox.new, LayoutBox.boxChildren_mk, subboxesForest] at hp
  rcases List.mem_cons.mp hp with h | h
  · subst h
    simp at hc
  · simp at h

theorem AnonChildrenInline_new (bt : BoxType) : AnonChildrenInline (LayoutBox.new bt) := by
  intro p hp hpa c hc
  rw [LayoutBox.subboxes_def] at hp
  simp only [LayoutBox.new, LayoutBox.boxChildren_mk, subboxesForest] at hp
  rcases List.mem_cons.mp hp with h | h
  · subst h
    simp at hc
  · simp at h

theorem AnonOnlyUnderBlock_pushChild (b c : LayoutBox)
    (Hb : AnonOnlyUnderBlock b) (Hc : AnonOnlyUnderBlock c)
    (hcna : c.box_type ≠ BoxType.anonymous) : AnonOnlyUnderBlock (b.pushChild c) := by
  intro p hp c2 hc2 hc2a
  rcases mem_subboxes_pushChild b c p hp with h | h | h
  · subst h
    simp only [LayoutBox.pushChild_children, List.mem_append, List.mem_singleton] at hc2
    rcases hc2 with h1 | h1
    · obtain ⟨m, hm⟩ := Hb b (LayoutBox.self_mem_subboxes b) c2 h1 hc2a
      exact ⟨m, by simpa using hm⟩
    · subst h1
      exact absurd hc2a hcna
  · exact Hb p (mem_subboxes_of_mem_forest b p h) c2 hc2 hc2a
  · exact Hc p h c2 hc2 hc2a

theorem AnonChildrenInline_pushChild (b c : LayoutBox)
    (Hb : AnonChildrenInline b) (Hc : AnonChildrenInline c)
    (hbna : b.box_type ≠ BoxType.anonymous) : AnonChildrenInline (b.pushChild c) := by
  intro p hp hpa c2 hc2
  rcases mem_subboxes_pushChild b c p hp with h | h | h
  · subst h
    simp only [LayoutBox.pushChild_box_type] at hpa
    exact absurd hpa hbna
  · exact Hb p (mem_subboxes_of_mem_forest b p h) hpa c2 hc2
  · exact Hc p h hpa c2 hc2

theorem AnonOnlyUnderBlock_push_inline_block (b c : LayoutBox) (m : Node)
    (hbt : b.box_type = BoxType.block m)
    (Hb : AnonOnlyUnderBlock b) (Hc : AnonOnlyUnderBlock c)
    (hcna : c.box_type ≠ BoxType.anonymous) : AnonOnlyUnderBlock (b.push_inline c) := by
  intro p hp c2 hc2 hc2a
  rcases mem_subboxes_push_inline_block b c p m hbt hp with
    h | h | h | ⟨lc, hlc, hlca, hpe⟩ | h
  · subst h
    exact ⟨m, by rw [LayoutBox.push_inline_box_type]; exact hbt⟩
  · exact Hb p (mem_subboxes_of_mem_forest b p h) c2 hc2 hc2a
  · exact Hc p h c2 hc2 hc2a
  · subst hpe
    simp only [LayoutBox.pushChild_children, List.mem_append, List.mem_singleton] at hc2
    rcases hc2 with h1 | h1
    · have hlcm : lc ∈ b.children := List.mem_of_mem_getLast? hlc
      obtain ⟨m', hm'⟩ := Hb lc
        (mem_subboxes_of_mem_forest b lc (mem_subboxesForest_self _ lc hlcm)) c2 h1 hc2a
      rw [hlca] at hm'
      simp at hm'
    · subst h1
      exact absurd hc2a hcna
  · subst h
    simp only [LayoutBox.boxChildren_mk, List.mem_singleton] at hc2
    subst hc2
    exact absurd hc2a hcna

theorem AnonChildrenInline_push_inline_block (b c : LayoutBox) (m m2 : Node)
    (hbt : b.box_type = BoxType.block m) (hci : c.box_type = BoxType.inline m2)
    (Hb : AnonChildrenInline b) (Hc : AnonChildrenInline c) :
    AnonChildrenInline (b.push_inline c) := by
  intro p hp hpa c2 hc2
  rcases mem_subboxes_push_inline_block b c p m hbt hp with
    h | h | h | ⟨lc, hlc, hlca, hpe⟩ | h
  · subst h
    rw [LayoutBox.push_inline_box_type, hbt] at hpa
    simp at hpa
  · exact Hb p (mem_subboxes_of_mem_forest b p h) hpa c2 hc2
  · exact Hc p h hpa c2 hc2
  · subst hpe
    simp only [LayoutBox.pushChild_children, List.mem_append, List.mem_singleton] at hc2
    rcases hc2 with h1 | h1
    · have hlcm : lc ∈ b.children := List.mem_of_mem_getLast? hlc
      exact Hb lc
        (mem_subboxes_of_mem_forest b lc (mem_subboxesForest_self _ lc hlcm)) hlca c2 h1
    · subst h1
      exact ⟨m2, hci⟩
  · subst h
    simp only [LayoutBox.boxChildren_mk, List.mem_singleton] at hc2
    subst hc2
    exact ⟨m2, hci⟩

/-- Both anonymous-box invariants hold for every built box tree. -/
theorem build_anon_invariants :
    ∀ n : Node, ∀ b, build_layout_tree n = Except.ok (Option.some b) →
      AnonOnlyUnderBlock b ∧ AnonChildrenInline b := by
  refine nodeListRec
    (P := fun n => ∀ b, build_layout_tree n = Except.ok (Option.some b) →
      AnonOnlyUnderBlock b ∧ AnonChildrenInline b)
    (Q := fun cs => ∀ acc,
      ((∃ m, acc.box_type = BoxType.block m) ∨ (∃ m, acc.box_type = BoxType.inline m)) →
      AnonOnlyUnderBlock acc → AnonChildrenInline acc →
      ∀ b, build_children cs acc = Except.ok b →
        AnonOnlyUnderBlock b ∧ AnonChildrenInline b) ?_ ?_ ?_
  · intro i c cs hQ b hb
    cases c with
    | none =>
      rw [build_layout_tree_unstyled _ (by simp)] at hb
      simp at hb
    | some cv =>
      cases hd : cv.display with
      | none =>
        rw [build_layout_tree_display_none _ cv (by simp) hd] at hb
        simp at hb
      | block =>
        rw [build_layout_tree_display_block _ cv (by simp) hd] at hb
        cases hbc : build_children (Node.mk i (Option.some cv) cs).children
            (LayoutBox.new (BoxType.block (Node.mk i (Option.some cv) cs))) with
        | error e => rw [hbc] at hb; simp [Except.map] at hb
        | ok val =>
          rw [hbc] at hb
          simp [Except.map] at hb
          subst hb
          exact hQ (LayoutBox.new (BoxType.block (Node.mk i (Option.some cv) cs)))
            (Or.inl ⟨_, rfl⟩) (AnonOnlyUnderBlock_new _) (AnonChildrenInline_new _)
            val (by simpa using hbc)
      | inline =>
        rw [build_layout_tree_display_inline _ cv (by simp) hd] at hb
        cases hbc : build_children (Node.mk i (Option.some cv) cs).children
            (LayoutBox.new (BoxType.inline (Node.mk i (Option.some cv) cs))) with
        | error e => rw [hbc] at hb; simp [Except.map] at hb
        | ok val =>
          rw [hbc] at hb
          simp [Except.map] at hb
          subst hb
          exact hQ (LayoutBox.new (BoxType.inline (Node.mk i (Option.some cv) cs)))
            (Or.inr ⟨_, rfl⟩) (AnonOnlyUnderBlock_new _) (AnonChildrenInline_new _)
            val (by simpa using hbc)
  · intro acc hshape H1 H2 b h
    simp only [build_children] at h
    cases h
    exact ⟨H1, H2⟩
  · intro child ns hP hQ acc hshape H1 H2 b h
    simp only [build_children] at h
    cases hcv : child.computed_values with
    | none => simp only [hcv] at h; simp at h
    | some ccv =>
      simp only [hcv] at h
      cases hd : ccv.display with
      | none =>
        simp only [hd] at h
        exact hQ acc hshape H1 H2 b h
      | block =>
        simp only [hd] at h
        cases hbt2 : build_layout_tree child with
        | error e => rw [hbt2] at h; simp at h
        | ok r =>
          rw [hbt2] at h
          cases r with
          | none => exact hQ acc hshape H1 H2 b h
          | some cb =>
            simp only [] at h
            obtain ⟨Hcb1, Hcb2⟩ := hP cb hbt2
            have hcbbt : cb.box_type = BoxType.block child :=
              (build_layout_tree_box_type child ccv cb hcv hbt2).2.1 hd
            have hcna : cb.box_type ≠ BoxType.anonymous := by
              rw [hcbbt]
              simp
            have hbna : acc.box_type ≠ BoxType.anonymous := by
              rcases hshape with ⟨m, hm⟩ | ⟨m, hm⟩ <;> rw [hm] <;> simp
            refine hQ (acc.pushChild cb) (by simpa using hshape) ?_ ?_ b h
            · exact AnonOnlyUnderBlock_pushChild acc cb H1 Hcb1 hcna
            · exact AnonChildrenInline_pushChild acc cb H2 Hcb2 hbna
      | inline =>
        simp only [hd] at h
        cases hbt2 : build_layout_tree child with
        | error e => rw [hbt2] at h; simp at h
        | ok r =>
          rw [hbt2] at h
          cases r with
          | none => exact hQ acc hshape H1 H2 b h
          | some cb =>
            simp only [] at h
            obtain ⟨Hcb1, Hcb2⟩ := hP cb hbt2
            have hcbbt : cb.box_type = BoxType.inline child :=
              (build_layout_tree_box_type child ccv cb hcv hbt2).2.2 hd
            have hcna : cb.box_type ≠ BoxType.anonymous := by
              rw [hcbbt]
              simp
            have hshape2 : ((∃ m, (acc.push_inline cb).box_type = BoxType.block m) ∨
                (∃ m, (acc.push_inline cb).box_type = BoxType.inline m)) := by
              rw [LayoutBox.push_inline_box_type]
              exact hshape
            rcases hshape with ⟨m, hm⟩ | ⟨m, hm⟩
            · refine hQ (acc.push_inline cb) hshape2 ?_ ?_ b h
              · exact AnonOnlyUnderBlock_push_inline_block acc cb m hm H1 Hcb1 hcna
              · exact AnonChildrenInline_push_inline_block acc cb m child hm hcbbt H2 Hcb2
            · have hbna : acc.box_type ≠ BoxType.anonymous := by
                rw [hm]
                simp
              have hpc : acc.push_inline cb = acc.pushChild cb :=
                push_inline_of_not_block acc cb (fun m' hc => by rw [hm] at hc; simp at hc)
              rw [hpc] at h
              refine hQ (acc.pushChild cb) (by simpa using Or.inr ⟨m, hm⟩) ?_ ?_ b h
              · exact AnonOnlyUnderBlock_pushChild acc cb H1 Hcb1 hcna
              · exact AnonChildrenInline_pushChild acc cb H2 Hcb2 hbna

/-! ### Claim theorems -/

/-- C1: a node whose resolved display is `None` yields no box (whatever
its children are), and — with distinct node identities — no descendant of
such a node appears anywhere in any output box tree, regardless of the
descendants' own display values. -/
theorem claim_C1_display_none_elides_subtree :
    (∀ (n : Node) (cv : ComputedValues), n.computed_values = Option.some cv →
      cv.display = Display.none → build_layout_tree n = Except.ok Option.none) ∧
    (∀ (root : Node) (b : LayoutBox),
      build_layout_tree root = Except.ok (Option.some b) →
      (root.subtreeNodes.map Node.id).Nodup →
      ∀ n ∈ root.subtreeNodes, ∀ cv, n.computed_values = Option.some cv →
        cv.display = Display.none →
        ∀ d ∈ n.strictDescendants, d.id ∉ b.sourceNodes.map Node.id) := by
  refine ⟨build_layout_tree_display_none, ?_⟩
  intro root b hb hnd n hn cv hc hd d hdm
  rw [build_sourceNodes root b hb]
  exact noneDescendants_not_visible root hnd n hn cv hc hd d hdm

/-- Witness for C1: the inline grandchild (id 2) below the `display:None`
child (id 1) appears nowhere in the tree built for the block root. -/
theorem claim_C1_display_none_elides_subtree_witness :
    build_layout_tree (Node.mk 1 (Option.some ⟨Display.none⟩)
        [Node.mk 2 (Option.some ⟨Display.inline⟩) []]) = Except.ok Option.none ∧
    (Node.mk 2 (Option.some ⟨Display.inline⟩) []).id ∉
      ((LayoutBox.new (BoxType.block (Node.mk 0 (Option.some ⟨Display.block⟩)
        [Node.mk 1 (Option.some ⟨Display.none⟩)
          [Node.mk 2 (Option.some ⟨Display.inline⟩) []]]))).sourceNodes.map Node.id) :=
  ⟨claim_C1_display_none_elides_subtree.1
      (Node.mk 1 (Option.some ⟨Display.none⟩) [Node.mk 2 (Option.some ⟨Display.inline⟩) []])
      ⟨Display.none⟩ rfl rfl,
   claim_C1_display_none_elides_subtree.2
      (Node.mk 0 (Option.some ⟨Display.block⟩) [Node.mk 1 (Option.some ⟨Display.none⟩)
        [Node.mk 2 (Option.some ⟨Display.inline⟩) []]])
      (LayoutBox.new (BoxType.block (Node.mk 0 (Option.some ⟨Display.block⟩)
        [Node.mk 1 (Option.some ⟨Display.none⟩)
          [Node.mk 2 (Option.some ⟨Display.inline⟩) []]])))
      rfl (by decide)
      (Node.mk 1 (Option.some ⟨Display.none⟩) [Node.mk 2 (Option.some ⟨Display.inline⟩) []])
      (by simp [Node.subtreeNodes, subtreeForest])
      ⟨Display.none⟩ rfl rfl
      (Node.mk 2 (Option.some ⟨Display.inline⟩) [])
      (by simp [Node.strictDescendants, Node.subtreeNodes, subtreeForest])⟩

/-- C6: with distinct node identities, the number of `Block`/`Inline`
boxes of the output equals the number of source nodes whose own display
is not `None` and that are not descendants of any `display:None` node;
and no source node is referenced by more than one box. -/
theorem claim_C6_box_count_matches_sources :
    ∀ (root : Node) (b : LayoutBox),
      (root.subtreeNodes.map Node.id).Nodup →
      build_layout_tree root = Except.ok (Option.some b) →
      b.countBlockInline = claimVisibleCount root ∧ (b.sourceNodes.map Node.id).Nodup := by
  intro root b hnd hb
  have hsrc := build_sourceNodes root b hb
  have hf : root.styledFrontier = true := (build_succeeds_iff root).mp ⟨_, hb⟩
  constructor
  · rw [countBlockInline_eq_length_sourceNodes, hsrc, visibleNodes_eq_filter root hnd hf,
      claimVisibleCount, List.countP_eq_length_filter]
  · rw [hsrc]
    exact List.Nodup.sublist ((visibleNodes_sublist root).map Node.id) hnd

/-- Witness for C6 at a concrete tree with one visible inline child and
one elided `display:None` subtree. -/
theorem claim_C6_box_count_matches_sources_witness :
    (LayoutBox.mk Dimensions.default
        (BoxType.block (Node.mk 0 (Option.some ⟨Display.block⟩)
          [Node.mk 1 (Option.some ⟨Display.inline⟩) [],
           Node.mk 2 (Option.some ⟨Display.none⟩) [Node.mk 3 (Option.some ⟨Display.inline⟩) []]]))
        [LayoutBox.mk Dimensions.default BoxType.anonymous
          [LayoutBox.new (BoxType.inline (Node.mk 1 (Option.some ⟨Display.inline⟩) []))]]).countBlockInline =
      claimVisibleCount (Node.mk 0 (Option.some ⟨Display.block⟩)
        [Node.mk 1 (Option.some ⟨Display.inline⟩) [],
         Node.mk 2 (Option.some ⟨Display.none⟩) [Node.mk 3 (Option.some ⟨Display.inline⟩) []]]) :=
  (claim_C6_box_count_matches_sources
    (Node.mk 0 (Option.some ⟨Display.block⟩)
      [Node.mk 1 (Option.some ⟨Display.inline⟩) [],
       Node.mk 2 (Option.some ⟨Display.none⟩) [Node.mk 3 (Option.some ⟨Display.inline⟩) []]])
    (LayoutBox.mk Dimensions.default
      (BoxType.block (Node.mk 0 (Option.some ⟨Display.block⟩)
        [Node.mk 1 (Option.some ⟨Display.inline⟩) [],
         Node.mk 2 (Option.some ⟨Display.none⟩) [Node.mk 3 (Option.some ⟨Display.inline⟩) []]]))
      [LayoutBox.mk Dimensions.default BoxType.anonymous
        [LayoutBox.new (BoxType.inline (Node.mk 1 (Option.some ⟨Display.inline⟩) []))]])
    (by decide) rfl).1

/-- C2: for a block node, each maximal run of consecutive inline-level
siblings is coalesced into a single trailing `Anonymous` box, and a new
`Anonymous` box starts only when the run is interrupted by a block-level
sibling (the kind-tag coalescing law); concretely, children with displays
[Inline, Inline, Block, Inline] yield exactly the three direct children
[Anonymous{Inline, Inline}, Block, Anonymous{Inline}], the two anonymous
boxes never merged across the intervening block. -/
theorem claim_C2_inline_run_coalescing :
    (∀ (i : Nat) (cv : ComputedValues) (cs : List Node) (b : LayoutBox),
      cv.display = Display.block →
      build_layout_tree (Node.mk i (Option.some cv) cs) = Except.ok (Option.some b) →
      kindTags b = coalesceKinds (visibleDisplays cs)) ∧
    build_layout_tree (Node.mk 0 (Option.some ⟨Display.block⟩)
      [Node.mk 1 (Option.some ⟨Display.inline⟩) [],
       Node.mk 2 (Option.some ⟨Display.inline⟩) [],
       Node.mk 3 (Option.some ⟨Display.block⟩) [],
       Node.mk 4 (Option.some ⟨Display.inline⟩) []]) =
    Except.ok (Option.some (LayoutBox.mk Dimensions.default
      (BoxType.block (Node.mk 0 (Option.some ⟨Display.block⟩)
        [Node.mk 1 (Option.some ⟨Display.inline⟩) [],
         Node.mk 2 (Option.some ⟨Display.inline⟩) [],
         Node.mk 3 (Option.some ⟨Display.block⟩) [],
         Node.mk 4 (Option.some ⟨Display.inline⟩) []]))
      [LayoutBox.mk Dimensions.default BoxType.anonymous
        [LayoutBox.new (BoxType.inline (Node.mk 1 (Option.some ⟨Display.inline⟩) [])),
         LayoutBox.new (BoxType.inline (Node.mk 2 (Option.some ⟨Display.inline⟩) []))],
       LayoutBox.new (BoxType.block (Node.mk 3 (Option.some ⟨Display.block⟩) [])),
       LayoutBox.mk Dimensions.default BoxType.anonymous
        [LayoutBox.new (BoxType.inline (Node.mk 4 (Option.some ⟨Display.inline⟩) []))]])) := by
  constructor
  · intro i cv cs b hd hb
    rw [build_layout_tree_display_block _ cv (by simp) hd] at hb
    cases hbc : build_children (Node.mk i (Option.some cv) cs).children
        (LayoutBox.new (BoxType.block (Node.mk i (Option.some cv) cs))) with
    | error e => rw [hbc] at hb; simp [Except.map] at hb
    | ok val =>
      rw [hbc] at hb
      simp [Except.map] at hb
      subst hb
      have hkt := build_children_kindTags cs
        (LayoutBox.new (BoxType.block (Node.mk i (Option.some cv) cs)))
        (Node.mk i (Option.some cv) cs) rfl val (by simpa using hbc)
      simpa [coalesceKinds, kindTags, LayoutBox.new] using hkt
  · rfl

/-- Witness for C2: the coalescing law applied at the concrete
[Inline, Inline, Block, Inline] child sequence. -/
theorem claim_C2_inline_run_coalescing_witness :
    kindTags (LayoutBox.mk Dimensions.default
      (BoxType.block (Node.mk 0 (Option.some ⟨Display.block⟩)
        [Node.mk 1 (Option.some ⟨Display.inline⟩) [],
         Node.mk 2 (Option.some ⟨Display.inline⟩) [],
         Node.mk 3 (Option.some ⟨Display.block⟩) [],
         Node.mk 4 (Option.some ⟨Display.inline⟩) []]))
      [LayoutBox.mk Dimensions.default BoxType.anonymous
        [LayoutBox.new (BoxType.inline (Node.mk 1 (Option.some ⟨Display.inline⟩) [])),
         LayoutBox.new (BoxType.inline (Node.mk 2 (Option.some ⟨Display.inline⟩) []))],
       LayoutBox.new (BoxType.block (Node.mk 3 (Option.some ⟨Display.block⟩) [])),
       LayoutBox.mk Dimensions.default BoxType.anonymous
        [LayoutBox.new (BoxType.inline (Node.mk 4 (Option.some ⟨Display.inline⟩) []))]]) =
    coalesceKinds (visibleDisplays
      [Node.mk 1 (Option.some ⟨Display.inline⟩) [],
       Node.mk 2 (Option.some ⟨Display.inline⟩) [],
       Node.mk 3 (Option.some ⟨Display.block⟩) [],
       Node.mk 4 (Option.some ⟨Display.inline⟩) []]) :=
  claim_C2_inline_run_coalescing.1 0 ⟨Display.block⟩
    [Node.mk 1 (Option.some ⟨Display.inline⟩) [],
     Node.mk 2 (Option.some ⟨Display.inline⟩) [],
     Node.mk 3 (Option.some ⟨Display.block⟩) [],
     Node.mk 4 (Option.some ⟨Display.inline⟩) []]
    (LayoutBox.mk Dimensions.default
      (BoxType.block (Node.mk 0 (Option.some ⟨Display.block⟩)
        [Node.mk 1 (Option.some ⟨Display.inline⟩) [],
         Node.mk 2 (Option.some ⟨Display.inline⟩) [],
         Node.mk 3 (Option.some ⟨Display.block⟩) [],
         Node.mk 4 (Option.some ⟨Display.inline⟩) []]))
      [LayoutBox.mk Dimensions.default BoxType.anonymous
        [LayoutBox.new (BoxType.inline (Node.mk 1 (Option.some ⟨Display.inline⟩) [])),
         LayoutBox.new (BoxType.inline (Node.mk 2 (Option.some ⟨Display.inline⟩) []))],
       LayoutBox.new (BoxType.block (Node.mk 3 (Option.some ⟨Display.block⟩) [])),
       LayoutBox.mk Dimensions.default BoxType.anonymous
        [LayoutBox.new (BoxType.inline (Node.mk 4 (Option.some ⟨Display.inline⟩) []))]])
    rfl rfl

/-- C8: when the parent box is an `Inline` box, a block-level child that
produces a box is appended directly as a child of that `Inline` box — no
inline-box splitting or wrapping is performed (the documented known
deviation from the CSS box-generation model). -/
theorem claim_C8_block_child_under_inline_parent :
    ∀ (i : Nat) (cv : ComputedValues) (cs : List Node) (b : LayoutBox),
      cv.display = Display.inline →
      build_layout_tree (Node.mk i (Option.some cv) cs) = Except.ok (Option.some b) →
      b.box_type = BoxType.inline (Node.mk i (Option.some cv) cs) ∧
      ∀ c ∈ cs, ∀ ccv cb, c.computed_values = Option.some ccv →
        ccv.display = Display.block →
        build_layout_tree c = Except.ok (Option.some cb) → cb ∈ b.children := by
  intro i cv cs b hd hb
  refine ⟨(build_layout_tree_box_type _ cv b (by simp) hb).2.2 hd, ?_⟩
  rw [build_layout_tree_display_inline _ cv (by simp) hd] at hb
  cases hbc : build_children (Node.mk i (Option.some cv) cs).children
      (LayoutBox.new (BoxType.inline (Node.mk i (Option.some cv) cs))) with
  | error e => rw [hbc] at hb; simp [Except.map] at hb
  | ok val =>
    rw [hbc] at hb
    simp [Except.map] at hb
    subst hb
    exact build_children_block_child_mem cs _ val (by simpa using hbc)

/-- Witness for C8: a concrete inline parent with one block child; the
block child's box sits directly among the inline box's children. -/
theorem claim_C8_block_child_under_inline_parent_witness :
    LayoutBox.new (BoxType.block (Node.mk 1 (Option.some ⟨Display.block⟩) [])) ∈
      (LayoutBox.mk Dimensions.default
        (BoxType.inline (Node.mk 0 (Option.some ⟨Display.inline⟩)
          [Node.mk 1 (Option.some ⟨Display.block⟩) []]))
        [LayoutBox.new (BoxType.block (Node.mk 1 (Option.some ⟨Display.block⟩) []))]).children :=
  (claim_C8_block_child_under_inline_parent 0 ⟨Display.inline⟩
    [Node.mk 1 (Option.some ⟨Display.block⟩) []]
    (LayoutBox.mk Dimensions.default
      (BoxType.inline (Node.mk 0 (Option.some ⟨Display.inline⟩)
        [Node.mk 1 (Option.some ⟨Display.block⟩) []]))
      [LayoutBox.new (BoxType.block (Node.mk 1 (Option.some ⟨Display.block⟩) []))])
    rfl rfl).2
    (Node.mk 1 (Option.some ⟨Display.block⟩) []) (List.mem_singleton.mpr rfl)
    ⟨Display.block⟩
    (LayoutBox.new (BoxType.block (Node.mk 1 (Option.some ⟨Display.block⟩) [])))
    rfl rfl rfl

/-- C5: in every built box tree, the parent of every `Anonymous` box is a
`Block` box — never an `Inline` box and never another `Anonymous` box —
and the root box itself is never `Anonymous`. -/
theorem claim_C5_anonymous_only_under_block :
    ∀ (root : Node) (b : LayoutBox),
      build_layout_tree root = Except.ok (Option.some b) →
      (∀ p ∈ b.subboxes, ∀ c ∈ p.children, c.box_type = BoxType.anonymous →
        ∃ m, p.box_type = BoxType.block m) ∧
      b.box_type ≠ BoxType.anonymous := by
  intro root b hb
  refine ⟨(build_anon_invariants root b hb).1, ?_⟩
  cases root with
  | mk i c cs =>
    cases c with
    | none =>
      rw [build_layout_tree_unstyled _ (by simp)] at hb
      simp at hb
    | some cv =>
      cases hd : cv.display with
      | none =>
        rw [build_layout_tree_display_none _ cv (by simp) hd] at hb
        simp at hb
      | block =>
        have hbt := (build_layout_tree_box_type _ cv b (by simp) hb).2.1 hd
        rw [hbt]
        simp
      | inline =>
        have hbt := (build_layout_tree_box_type _ cv b (by simp) hb).2.2 hd
        rw [hbt]
        simp

/-- Witness for C5: in the concrete tree for a block root with one inline
child, the `Anonymous` wrapper's parent is indeed the `Block` root box. -/
theorem claim_C5_anonymous_only_under_block_witness :
    ∃ m, (LayoutBox.mk Dimensions.default
      (BoxType.block (Node.mk 0 (Option.some ⟨Display.block⟩)
        [Node.mk 1 (Option.some ⟨Display.inline⟩) []]))
      [LayoutBox.mk Dimensions.default BoxType.anonymous
        [LayoutBox.new (BoxType.inline (Node.mk 1 (Option.some ⟨Display.inline⟩) []))]]).box_type =
      BoxType.block m :=
  (claim_C5_anonymous_only_under_block
    (Node.mk 0 (Option.some ⟨Display.block⟩) [Node.mk 1 (Option.some ⟨Display.inline⟩) []])
    (LayoutBox.mk Dimensions.default
      (BoxType.block (Node.mk 0 (Option.some ⟨Display.block⟩)
        [Node.mk 1 (Option.some ⟨Display.inline⟩) []]))
      [LayoutBox.mk Dimensions.default BoxType.anonymous
        [LayoutBox.new (BoxType.inline (Node.mk 1 (Option.some ⟨Display.inline⟩) []))]])
    rfl).1
    (LayoutBox.mk Dimensions.default
      (BoxType.block (Node.mk 0 (Option.some ⟨Display.block⟩)
        [Node.mk 1 (Option.some ⟨Display.inline⟩) []]))
      [LayoutBox.mk Dimensions.default BoxType.anonymous
        [LayoutBox.new (BoxType.inline (Node.mk 1 (Option.some ⟨Display.inline⟩) []))]])
    (LayoutBox.self_mem_subboxes _)
    (LayoutBox.mk Dimensions.default BoxType.anonymous
      [LayoutBox.new (BoxType.inline (Node.mk 1 (Option.some ⟨Display.inline⟩) []))])
    (by simp)
    rfl

/-- C10: in every built box tree, every direct child of an `Anonymous`
box is an `Inline` box — `Block` boxes and nested `Anonymous` boxes never
appear inside an `Anonymous` box. -/
theorem claim_C10_anonymous_children_inline :
    ∀ (root : Node) (b : LayoutBox),
      build_layout_tree root = Except.ok (Option.some b) →
      ∀ p ∈ b.subboxes, p.box_type = BoxType.anonymous →
        ∀ c ∈ p.children, ∃ m, c.box_type = BoxType.inline m :=
  fun root b hb => (build_anon_invariants root b hb).2

/-- Witness for C10: the concrete `Anonymous` wrapper's only child is the
`Inline` box of the inline child node. -/
theorem claim_C10_anonymous_children_inline_witness :
    ∃ m, (LayoutBox.new (BoxType.inline
        (Node.mk 1 (Option.some ⟨Display.inline⟩) []))).box_type = BoxType.inline m :=
  claim_C10_anonymous_children_inline
    (Node.mk 0 (Option.some ⟨Display.block⟩) [Node.mk 1 (Option.some ⟨Display.inline⟩) []])
    (LayoutBox.mk Dimensions.default
      (BoxType.block (Node.mk 0 (Option.some ⟨Display.block⟩)
        [Node.mk 1 (Option.some ⟨Display.inline⟩) []]))
      [LayoutBox.mk Dimensions.default BoxType.anonymous
        [LayoutBox.new (BoxType.inline (Node.mk 1 (Option.some ⟨Display.inline⟩) []))]])
    rfl
    (LayoutBox.mk Dimensions.default BoxType.anonymous
      [LayoutBox.new (BoxType.inline (Node.mk 1 (Option.some ⟨Display.inline⟩) []))])
    (by simp [LayoutBox.subboxes_def, subboxesForest, LayoutBox.subboxes])
    rfl
    (LayoutBox.new (BoxType.inline (Node.mk 1 (Option.some ⟨Display.inline⟩) [])))
    (by simp)

/-- C3: `get_inline_container` returns the box itself when its kind is
`Inline` or `Anonymous`; on a `Block` box it returns the last existing
child when that child's kind tag is `Anonymous`, and otherwise appends a
brand-new empty `Anonymous` box and returns that; the test uses only the
variant tag. -/
theorem claim_C3_get_inline_container :
    ∀ b : LayoutBox,
      ((∃ m, b.box_type = BoxType.inline m) ∨ b.box_type = BoxType.anonymous →
        b.get_inline_container = (b, ContainerLoc.self)) ∧
      (∀ m, b.box_type = BoxType.block m →
        (∀ lc, b.children.getLast? = Option.some lc →
          lc.box_type.discriminant = BoxType.anonymous.discriminant →
            b.get_inline_container = (b, ContainerLoc.lastChild) ∧
            containerOf b.get_inline_container = Option.some lc) ∧
        (∀ lc, b.children.getLast? = Option.some lc →
          lc.box_type.discriminant ≠ BoxType.anonymous.discriminant →
            b.get_inline_container =
              (b.pushChild (LayoutBox.new BoxType.anonymous), ContainerLoc.lastChild) ∧
            containerOf b.get_inline_container =
              Option.some (LayoutBox.new BoxType.anonymous)) ∧
        (b.children.getLast? = Option.none →
          b.get_inline_container =
            (b.pushChild (LayoutBox.new BoxType.anonymous), ContainerLoc.lastChild) ∧
          containerOf b.get_inline_container =
            Option.some (LayoutBox.new BoxType.anonymous))) := by
  intro b
  constructor
  · rintro (⟨m, hbt⟩ | hbt) <;> simp [LayoutBox.get_inline_container, hbt]
  · intro m hbt
    refine ⟨?_, ?_, ?_⟩
    · intro lc hl hd
      have hgic : b.get_inline_container = (b, ContainerLoc.lastChild) := by
        simp [LayoutBox.get_inline_container, hbt, hl, hd]
      exact ⟨hgic, by simp [containerOf, hgic, hl]⟩
    · intro lc hl hd
      have hgic : b.get_inline_container =
          (b.pushChild (LayoutBox.new BoxType.anonymous), ContainerLoc.lastChild) := by
        simp [LayoutBox.get_inline_container, hbt, hl, hd]
      exact ⟨hgic, by simp [containerOf, hgic]⟩
    · intro hl
      have hgic : b.get_inline_container =
          (b.pushChild (LayoutBox.new BoxType.anonymous), ContainerLoc.lastChild) := by
        simp [LayoutBox.get_inline_container, hbt, hl]
      exact ⟨hgic, by simp [containerOf, hgic]⟩

/-- Witness for C3 at a concrete `Block` box with a non-`Anonymous` last
child: a fresh `Anonymous` container is appended and returned. -/
theorem claim_C3_get_inline_container_witness :
    (LayoutBox.mk Dimensions.default (BoxType.block (Node.mk 0 Option.none []))
        [LayoutBox.new (BoxType.inline (Node.mk 1 Option.none []))]).get_inline_container =
      ((LayoutBox.mk Dimensions.default (BoxType.block (Node.mk 0 Option.none []))
        [LayoutBox.new (BoxType.inline (Node.mk 1 Option.none []))]).pushChild
          (LayoutBox.new BoxType.anonymous), ContainerLoc.lastChild) :=
  (((claim_C3_get_inline_container
      (LayoutBox.mk Dimensions.default (BoxType.block (Node.mk 0 Option.none []))
        [LayoutBox.new (BoxType.inline (Node.mk 1 Option.none []))])).2
    (Node.mk 0 Option.none []) rfl).2.1
    (LayoutBox.new (BoxType.inline (Node.mk 1 Option.none []))) rfl (by decide)).1

/-- C7: a visited node without resolved computed values aborts the whole
build fatally with no partial result; under the full-subtree precondition
the build never fails; and `display:None` elision is reported as the
normal empty result, not a failure. -/
theorem claim_C7_fatal_abort_total_otherwise :
    (∀ n : Node, n.computed_values = Option.none →
      build_layout_tree n = Except.error panicMsg) ∧
    (∀ n : Node, n.allStyled = true → ∃ r, build_layout_tree n = Except.ok r) ∧
    (∀ (n : Node) (cv : ComputedValues), n.computed_values = Option.some cv →
      cv.display = Display.none → build_layout_tree n = Except.ok Option.none) := by
  refine ⟨build_layout_tree_unstyled, ?_, build_layout_tree_display_none⟩
  intro n h
  exact (build_succeeds_iff n).mpr (allStyled_styledFrontier n h)

/-- Witness for C7: a concrete unstyled node aborts; a concrete fully
styled node succeeds; a concrete `display:None` node yields the empty
result. -/
theorem claim_C7_fatal_abort_total_otherwise_witness :
    build_layout_tree (Node.mk 0 Option.none []) = Except.error panicMsg ∧
    (∃ r, build_layout_tree (Node.mk 1 (Option.some ⟨Display.block⟩) []) = Except.ok r) ∧
    build_layout_tree (Node.mk 2 (Option.some ⟨Display.none⟩) []) = Except.ok Option.none :=
  ⟨claim_C7_fatal_abort_total_otherwise.1 (Node.mk 0 Option.none []) rfl,
   claim_C7_fatal_abort_total_otherwise.2.1 (Node.mk 1 (Option.some ⟨Display.block⟩) []) rfl,
   claim_C7_fatal_abort_total_otherwise.2.2 (Node.mk 2 (Option.some ⟨Display.none⟩) [])
     ⟨Display.none⟩ rfl rfl⟩

/-- C9: the resolved-style requirement is enforced lazily along the
visited frontier — the build succeeds exactly when `styledFrontier`
holds, and nodes strictly below a `display:None` child (here: arbitrary,
possibly unstyled `cs`) never trigger the fatal abort. -/
theorem claim_C9_lazy_frontier_enforcement :
    (∀ n : Node, (∃ r, build_layout_tree n = Except.ok r) ↔ n.styledFrontier = true) ∧
    (∀ (i j : Nat) (cs : List Node), ∃ b,
      build_layout_tree (Node.mk i (Option.some ⟨Display.block⟩)
          [Node.mk j (Option.some ⟨Display.none⟩) cs]) =
        Except.ok (Option.some b)) := by
  refine ⟨build_succeeds_iff, ?_⟩
  intro i j cs
  exact ⟨LayoutBox.new (BoxType.block (Node.mk i (Option.some ⟨Display.block⟩)
    [Node.mk j (Option.some ⟨Display.none⟩) cs])), rfl⟩

/-- Witness for C9 at a concrete tree: a completely unstyled node below a
`display:None` child does not abort the build. -/
theorem claim_C9_lazy_frontier_enforcement_witness :
    ∃ b, build_layout_tree (Node.mk 0 (Option.some ⟨Display.block⟩)
        [Node.mk 1 (Option.some ⟨Display.none⟩) [Node.mk 2 Option.none []]]) =
      Except.ok (Option.some b) :=
  claim_C9_lazy_frontier_enforcement.2 0 1 [Node.mk 2 Option.none []]

/-- C4: under the resolved-style precondition, build returns a box exactly
when display is not `None`; the box's kind is `Block(node)` or
`Inline(node)` with a back-reference to that very node, and it carries
default-zero dimensions. -/
theorem claim_C4_box_kind_and_membership :
    ∀ (n : Node) (cv : ComputedValues),
      n.computed_values = Option.some cv → n.allStyled = true →
      (((∃ b, build_layout_tree n = Except.ok (Option.some b)) ↔ cv.display ≠ Display.none) ∧
       ∀ b, build_layout_tree n = Except.ok (Option.some b) →
         b.dimensions = Dimensions.default ∧
         (cv.display = Display.block → b.box_type = BoxType.block n) ∧
         (cv.display = Display.inline → b.box_type = BoxType.inline n)) := by
  intro n cv hc hs
  constructor
  · constructor
    · rintro ⟨b, hb⟩ hd
      rw [build_layout_tree_display_none n cv hc hd] at hb
      simp at hb
    · intro hd
      obtain ⟨r, hr⟩ := (build_succeeds_iff n).mpr (allStyled_styledFrontier n hs)
      cases r with
      | none =>
        obtain ⟨cv', hc', hd'⟩ := build_layout_tree_ok_none n hr
        rw [hc] at hc'
        cases hc'
        exact absurd hd' hd
      | some b => exact ⟨b, hr⟩
  · intro b hb
    exact build_layout_tree_box_type n cv b hc hb

/-- Witness for C4 at a concrete inline leaf node. -/
theorem claim_C4_box_kind_and_membership_witness :
    (∃ b, build_layout_tree (Node.mk 5 (Option.some ⟨Display.inline⟩) []) =
      Except.ok (Option.some b)) ∧
    (LayoutBox.new (BoxType.inline (Node.mk 5 (Option.some ⟨Display.inline⟩) []))).box_type =
      BoxType.inline (Node.mk 5 (Option.some ⟨Display.inline⟩) []) :=
  ⟨(claim_C4_box_kind_and_membership (Node.mk 5 (Option.some ⟨Display.inline⟩) [])
      ⟨Display.inline⟩ rfl rfl).1.mpr (by simp),
   ((claim_C4_box_kind_and_membership (Node.mk 5 (Option.some ⟨Display.inline⟩) [])
      ⟨Display.inline⟩ rfl rfl).2 _ rfl).2.2 rfl⟩

end Kosmonaut
